import Mathlib

/-!
The replication pipeline of tg_forwarder.

A shallow embedding of `internal/telegram/client.go` and
`internal/telegram/process.go`.

* Go values of an interface type that may be `nil` are `Option`s.
* A Go `(T, error)` result is an `Except Error T`; a Go `error` result is an
  `Option Error` (`none` is `nil`).
* Code that can hit a Go run-time panic, or a loop without a bound, returns a
  `Res`, which adds the outcomes `panic` and `diverge` (fuel exhausted).
* The remote service, the rate limiter, the random source and the context are
  an `Env`: for every kind of call, the reply to the n-th call of that kind.
* Every remote call, every limiter acquisition, every call of a send method
  and every line printed is appended to `State.trace`, in the order in which
  the code performs it.  Sleeping (`time.Sleep`, the timer inside
  `tgerr.FloodWait`) is not recorded: real time is outside the model.
* The replies of the remote calls are those the API client hands to the code,
  that is, after the flood-wait middleware installed by `ProcessChannels`.
* The mutex of `Client` is left out: a run has one caller at a time.
-/

set_option linter.dupNamespace false

namespace TgForwarder

/-! ## Errors -/

/-- The `Type` of a `tgerr.Error`, the error an RPC call of the remote service returns. -/
inductive RpcType where
  | floodWait
  | chatForwardsRestricted
  | other (name : String)
deriving DecidableEq, Repr

/-- Go `error` values, as far as the code tells them apart. -/
inductive Error where
  /-- An RPC error of the remote service (`*tgerr.Error`), with its argument. -/
  | rpc (type : RpcType) (argument : Nat)
  /-- The error of a cancelled context (`ctx.Err()`). -/
  | canceled
  /-- The error of `rand.Int` when the random source cannot be read. -/
  | randRead
  /-- An error made by `fmt.Errorf` without `%w`. -/
  | new (text : String)
  /-- An error wrapped by `errors.Wrap` or `fmt.Errorf` with `%w`. -/
  | wrap (text : String) (cause : Error)
deriving DecidableEq, Repr

/-- The `*tgerr.Error` in the chain of an error (`errors.As`). -/
def Error.asRpc : Error → Option (RpcType × Nat)
  | .rpc t a => some (t, a)
  | .wrap _ cause => cause.asRpc
  | _ => none

/-- Library function `tg.IsChatForwardsRestricted`. -/
def IsChatForwardsRestricted (err : Error) : Bool :=
  match err.asRpc with
  | some (.chatForwardsRestricted, _) => true
  | _ => false

/-- Library function `tgerr.AsFloodWait`: the duration to wait, in seconds. -/
def AsFloodWait (err : Error) : Option Nat :=
  match err.asRpc with
  | some (.floodWait, seconds) => some seconds
  | _ => none

/-- Library function `tgerr.FloodWait`: on a flood wait it sleeps and reports `true`, unless
the context is done before the timer fires (`ctxDone`), and then it reports `false` and the
error of the context; on any other error it reports `false` and the error. -/
def FloodWait (ctxDone : Bool) (err : Error) : Bool × Error :=
  match AsFloodWait err with
  | some _ => if ctxDone then (false, .canceled) else (true, err)
  | none => (false, err)

/-- Outcome of code that may panic or loop. -/
inductive Res (α : Type) where
  | ok (val : α)
  | err (e : Error)
  | panic (reason : String)
  | diverge
deriving DecidableEq, Repr

/-! ## The data of the remote service (package `tg`) -/

structure MessageEntity where
  kind : Nat
  offset : Nat
  length : Nat
deriving DecidableEq, Repr

structure InputPhoto where
  ID : Int
  AccessHash : Int
  FileReference : List Nat
deriving DecidableEq, Repr

structure InputDocument where
  ID : Int
  AccessHash : Int
  FileReference : List Nat
deriving DecidableEq, Repr

/-- A photo that is not empty (`*tg.Photo`). -/
structure Photo where
  ID : Int
  AccessHash : Int
  FileReference : List Nat
deriving DecidableEq, Repr

/-- A document that is not empty (`*tg.Document`). -/
structure Document where
  ID : Int
  AccessHash : Int
  FileReference : List Nat
deriving DecidableEq, Repr

def Photo.AsInput (p : Photo) : InputPhoto := ⟨p.ID, p.AccessHash, p.FileReference⟩

def Document.AsInput (d : Document) : InputDocument := ⟨d.ID, d.AccessHash, d.FileReference⟩

inductive PhotoClass where
  | photoEmpty (id : Int)
  | photo (p : Photo)
deriving DecidableEq, Repr

inductive DocumentClass where
  | documentEmpty (id : Int)
  | document (d : Document)
deriving DecidableEq, Repr

def PhotoClass.AsNotEmpty : PhotoClass → Option Photo
  | .photoEmpty _ => none
  | .photo p => some p

def DocumentClass.AsNotEmpty : DocumentClass → Option Document
  | .documentEmpty _ => none
  | .document d => some d

/-- The media of a message.  The `Photo` and `Document` fields are optional in the schema:
`none` is the `nil` interface value.  `other` stands for every other constructor of
`tg.MessageMediaClass` (geo point, contact, poll, web page, ...). -/
inductive MessageMediaClass where
  | messageMediaPhoto (Photo : Option PhotoClass)
  | messageMediaDocument (Document : Option DocumentClass)
  | other (typeName : String)
deriving DecidableEq, Repr

inductive InputMediaClass where
  | inputMediaPhoto (ID : InputPhoto)
  | inputMediaDocument (ID : InputDocument)
deriving DecidableEq, Repr

/-- A regular message (`*tg.Message`), with the fields the pipeline reads. -/
structure Message where
  ID : Int
  Message : String
  Entities : List MessageEntity
  Media : Option MessageMediaClass
  GroupedID : Int
deriving DecidableEq, Repr

inductive MessageClass where
  | messageEmpty (id : Int)
  | message (m : Message)
  | messageService (id : Int)
deriving DecidableEq, Repr

def MessageClass.GetID : MessageClass → Int
  | .messageEmpty id => id
  | .message m => m.ID
  | .messageService id => id

/-- The type assertion `msg.(*tg.Message)`. -/
def MessageClass.asMessage : MessageClass → Option Message
  | .message m => some m
  | _ => none

inductive MessagesMessagesClass where
  | messagesMessages (Messages : List MessageClass)
  | messagesMessagesSlice (Messages : List MessageClass)
  | messagesChannelMessages (Messages : List MessageClass)
  | messagesMessagesNotModified (count : Nat)
deriving DecidableEq, Repr

inductive ChatClass where
  | chatEmpty (id : Int)
  | chat (id : Int)
  | chatForbidden (id : Int)
  | channel (id : Int) (AccessHash : Int)
  | channelForbidden (id : Int) (AccessHash : Int)
deriving DecidableEq, Repr

inductive MessagesChatsClass where
  | messagesChats (Chats : List ChatClass)
  | messagesChatsSlice (count : Nat) (Chats : List ChatClass)
deriving DecidableEq, Repr

def MessagesChatsClass.GetChats : MessagesChatsClass → List ChatClass
  | .messagesChats cs => cs
  | .messagesChatsSlice _ cs => cs

structure InputPeerChannel where
  ChannelID : Int
  AccessHash : Int
deriving DecidableEq, Repr

inductive UpdateClass where
  | updateMessageID (ID : Int)
  | other (typeName : String)
deriving DecidableEq, Repr

/-- The response of a send call.  `other` stands for every constructor of `tg.UpdatesClass`
that is not `*tg.Updates`. -/
inductive UpdatesClass where
  | updates (Updates : List UpdateClass)
  | other (typeName : String)
deriving DecidableEq, Repr

structure MessagesSendMessageRequest where
  Peer : InputPeerChannel
  Message : String
  Entities : List MessageEntity
  NoWebpage : Bool
  RandomID : Int
deriving DecidableEq, Repr

structure MessagesSendMediaRequest where
  Peer : InputPeerChannel
  Media : InputMediaClass
  Message : String
  Entities : List MessageEntity
  RandomID : Int
deriving DecidableEq, Repr

structure InputSingleMedia where
  Media : InputMediaClass
  RandomID : Int
  Message : String
  Entities : List MessageEntity
deriving DecidableEq, Repr

structure MessagesSendMultiMediaRequest where
  Peer : InputPeerChannel
  MultiMedia : List InputSingleMedia
deriving DecidableEq, Repr

/-- `MultiMediaItem` of client.go. -/
structure MultiMediaItem where
  Media : InputMediaClass
  Caption : String
  Entities : List MessageEntity
deriving DecidableEq, Repr

/-! ## The environment and the state of a run -/

/-- What a run does that can be observed from outside, in the order of the code. -/
inductive Event where
  /-- Remote call `ChannelsGetChannels` for one channel with access hash 0. -/
  | ChannelsGetChannels (channelID : Int)
  /-- Remote call `MessagesGetHistory`. -/
  | MessagesGetHistory (peer : InputPeerChannel) (offsetID : Int)
  /-- A call of `limiter.Wait`, with whether admission was granted. -/
  | limiterWait (granted : Bool)
  /-- A call of the method `sendTextMessage`. -/
  | sendTextMessage (peer : InputPeerChannel) (text : String) (entities : List MessageEntity)
  /-- A call of the method `sendMedia`. -/
  | sendMedia (peer : InputPeerChannel) (media : InputMediaClass) (caption : String)
      (entities : List MessageEntity)
  /-- A call of the method `sendMultiMedia`. -/
  | sendMultiMedia (peer : InputPeerChannel) (medias : List MultiMediaItem)
  /-- Remote call `MessagesSendMessage`. -/
  | MessagesSendMessage (req : MessagesSendMessageRequest)
  /-- Remote call `MessagesSendMedia`. -/
  | MessagesSendMedia (req : MessagesSendMediaRequest)
  /-- Remote call `MessagesSendMultiMedia`. -/
  | MessagesSendMultiMedia (req : MessagesSendMultiMediaRequest)
  /-- A line written by `fmt.Println`, by its fixed first words. -/
  | print (line : String)
deriving DecidableEq, Repr

/-- The collaborators of a run.  Each field gives the reply to the n-th call (from 0) of its
kind during the run. -/
structure Env where
  /-- `os.MkdirAll` for the session directory `session/<digits of the phone>`. -/
  mkdirAll : Option Error
  /-- `tgClient.Auth().IfNecessary`. -/
  auth : Option Error
  ChannelsGetChannels : Nat → Except Error MessagesChatsClass
  MessagesGetHistory : Nat → Except Error MessagesMessagesClass
  /-- Whether the context is done before the timer of the flood wait that follows the n-th
  history call fires. -/
  ctxDone : Nat → Bool
  /-- `limiter.Wait`: `none` when admission is granted. -/
  limiterWait : Nat → Option Error
  /-- `rand.Int(rand.Reader, 1 << 63)`: `none` when the random source cannot be read. -/
  randInt : Nat → Option Int
  MessagesSendMessage : Nat → Except Error UpdatesClass
  MessagesSendMedia : Nat → Except Error UpdatesClass
  MessagesSendMultiMedia : Nat → Except Error UpdatesClass

/-- The state of a run: the trace, the number of calls of each kind made so far, and the two
variables `currentGroupID` and `albumBuf` of `ProcessChannels` that `flushAlbum` shares with
the loop. -/
structure State where
  trace : List Event
  nChannels : Nat
  nHistory : Nat
  nWait : Nat
  nRand : Nat
  nSendMessage : Nat
  nSendMedia : Nat
  nSendMultiMedia : Nat
  currentGroupID : Int
  albumBuf : List Message
deriving DecidableEq, Repr

/-- The state at the start of a run. -/
def State.init : State :=
  ⟨[], 0, 0, 0, 0, 0, 0, 0, 0, []⟩

def State.log (s : State) (e : Event) : State :=
  { s with trace := s.trace ++ [e] }

def State.tickChannels (s : State) : State := { s with nChannels := s.nChannels + 1 }

def State.tickHistory (s : State) : State := { s with nHistory := s.nHistory + 1 }

def State.tickWait (s : State) : State := { s with nWait := s.nWait + 1 }

def State.tickRand (s : State) : State := { s with nRand := s.nRand + 1 }

def State.tickSendMessage (s : State) : State := { s with nSendMessage := s.nSendMessage + 1 }

def State.tickSendMedia (s : State) : State := { s with nSendMedia := s.nSendMedia + 1 }

def State.tickSendMultiMedia (s : State) : State :=
  { s with nSendMultiMedia := s.nSendMultiMedia + 1 }

/-- The assignments `albumBuf = nil` and `currentGroupID = 0` of `flushAlbum`. -/
def State.clearAlbum (s : State) : State := { s with albumBuf := [], currentGroupID := 0 }

/-- The assignments `currentGroupID = msg.GroupedID` and `albumBuf = []*tg.Message{msg}`. -/
def State.startAlbum (s : State) (msg : Message) : State :=
  { s with currentGroupID := msg.GroupedID, albumBuf := [msg] }

/-- The assignment `albumBuf = append(albumBuf, msg)`. -/
def State.appendAlbum (s : State) (msg : Message) : State :=
  { s with albumBuf := s.albumBuf ++ [msg] }

/-! ## client.go -/

/-- The loop `for i := 0; i < length/2; i++` at the end of `fetchChannelMessages`, which
swaps `result[i]` and `result[length-1-i]`; `todo` counts the iterations that are left.
Both indices are in range in every iteration; the model leaves the list as it is when one is
not. -/
def swapLoop {α : Type} (length : Nat) : (todo : Nat) → (i : Nat) → List α → List α
  | 0, _, result => result
  | todo + 1, i, result =>
    match result[i]?, result[length - 1 - i]? with
    | some a, some b => swapLoop length todo (i + 1) ((result.set i b).set (length - 1 - i) a)
    | _, _ => swapLoop length todo (i + 1) result

/-- The reversal in place at the end of `fetchChannelMessages`. -/
def reverseInPlace {α : Type} (result : List α) : List α :=
  swapLoop result.length (result.length / 2) 0 result

/-- Method `getPeerChannel` of client.go. -/
def getPeerChannel (env : Env) (s : State) (channelID : Int) : Res InputPeerChannel × State :=
  let reply := env.ChannelsGetChannels s.nChannels
  let s := (s.log (.ChannelsGetChannels channelID)).tickChannels
  match reply with
  | .error err => (.err (.wrap "failed to fetch channel" err), s)
  | .ok channels =>
    match channels.GetChats with
    | [] => (.panic "index out of range [0] with length 0", s)
    | .channel _ accessHash :: _ => (.ok ⟨channelID, accessHash⟩, s)
    | _ :: _ => (.panic "interface conversion: tg.ChatClass is not *tg.Channel", s)

/-- The `for` loop of `fetchChannelMessages`, up to its `break`: it gives the messages
accumulated in `result`.  `fuel` bounds the number of iterations. -/
def fetchLoop (env : Env) (inputPeer : InputPeerChannel) :
    (fuel : Nat) → (offsetID : Int) → (result : List Message) → State → Res (List Message) × State
  | 0, _, _, s => (.diverge, s)
  | fuel + 1, offsetID, result, s =>
    let reply := env.MessagesGetHistory s.nHistory
    let ctxDone := env.ctxDone s.nHistory
    let s := (s.log (.MessagesGetHistory inputPeer offsetID)).tickHistory
    match reply with
    | .error err =>
      if (FloodWait ctxDone err).1 then fetchLoop env inputPeer fuel offsetID result s
      else (.err err, s)
    | .ok (.messagesChannelMessages messages) =>
      match messages.getLast? with
      | none => (.ok result, s)
      | some last =>
        fetchLoop env inputPeer fuel last.GetID (result ++ messages.filterMap MessageClass.asMessage) s
    | .ok _ => (.ok result, s)

/-- Method `fetchChannelMessages` of client.go. -/
def fetchChannelMessages (env : Env) (fuel : Nat) (s : State) (chatID : Int) :
    Res (List Message) × State :=
  match getPeerChannel env s chatID with
  | (.ok inputPeer, s) =>
    match fetchLoop env inputPeer fuel 0 [] s with
    | (.ok result, s) => (.ok (reverseInPlace result), s)
    | r => r
  | (.err err, s) => (.err (.wrap "getPeerChannel" err), s)
  | (.panic reason, s) => (.panic reason, s)
  | (.diverge, s) => (.diverge, s)

/-- The search for the `*tg.UpdateMessageID` in the updates of a response. -/
def findMessageID : List UpdateClass → Option Int
  | [] => none
  | .updateMessageID id :: _ => some id
  | _ :: rest => findMessageID rest

/-- Method `sendTextMessage` of client.go. -/
def sendTextMessage (env : Env) (s : State) (peer : InputPeerChannel) (text : String)
    (entities : List MessageEntity) : Except Error Int × State :=
  let s := s.log (.sendTextMessage peer text entities)
  let drawn := env.randInt s.nRand
  let s := s.tickRand
  match drawn with
  | none => (.error (.wrap "RandomId" .randRead), s)
  | some randomId =>
    let req : MessagesSendMessageRequest := ⟨peer, text, entities, true, randomId⟩
    let reply := env.MessagesSendMessage s.nSendMessage
    let s := (s.log (.MessagesSendMessage req)).tickSendMessage
    match reply with
    | .error _ =>
      -- the error is printed and `resp` is nil: the type assertion fails
      (.error (.new "unexpected response type from sendMessage"), s.log (.print "Error"))
    | .ok (.updates upd) =>
      match findMessageID upd with
      | some id => (.ok id, s)
      | none => (.error (.new "could not find new message ID in updates (message)"), s)
    | .ok (.other _) => (.error (.new "unexpected response type from sendMessage"), s)

/-- Method `sendMedia` of client.go. -/
def sendMedia (env : Env) (s : State) (peer : InputPeerChannel) (media : InputMediaClass)
    (caption : String) (entities : List MessageEntity) : Except Error Int × State :=
  let s := s.log (.sendMedia peer media caption entities)
  let drawn := env.randInt s.nRand
  let s := s.tickRand
  match drawn with
  | none => (.error (.wrap "RandomId" .randRead), s)
  | some randomId =>
    let req : MessagesSendMediaRequest := ⟨peer, media, caption, entities, randomId⟩
    let reply := env.MessagesSendMedia s.nSendMedia
    let s := (s.log (.MessagesSendMedia req)).tickSendMedia
    match reply with
    | .error _ =>
      (.error (.new "unexpected response type from sendMedia"),
        (s.log (.print "Error")).log (.print "media"))
    | .ok (.updates upd) =>
      match findMessageID upd with
      | some id => (.ok id, s)
      | none => (.error (.new "could not find new message ID in updates (media)"), s)
    | .ok (.other _) =>
      (.error (.new "unexpected response type from sendMedia"), s.log (.print "media"))

/-- The first loop of `sendMultiMedia`, which builds `inputMedias`; `i` is the index of the
next item. -/
def buildInputMedias (env : Env) : List MultiMediaItem → (i : Nat) →
    (inputMedias : List InputSingleMedia) → State → Except Error (List InputSingleMedia) × State
  | [], _, inputMedias, s => (.ok inputMedias, s)
  | item :: rest, i, inputMedias, s =>
    let drawn := env.randInt s.nRand
    let s := s.tickRand
    match drawn with
    | none => (.error (.wrap "RandomId" .randRead), s)
    | some randomId =>
      let im : InputSingleMedia :=
        if i = 0 then ⟨item.Media, randomId, item.Caption, item.Entities⟩
        else ⟨item.Media, randomId, "", []⟩
      buildInputMedias env rest (i + 1) (inputMedias ++ [im]) s

/-- Method `sendMultiMedia` of client.go. -/
def sendMultiMedia (env : Env) (s : State) (peer : InputPeerChannel)
    (medias : List MultiMediaItem) : Except Error Int × State :=
  let s := s.log (.sendMultiMedia peer medias)
  match buildInputMedias env medias 0 [] s with
  | (.error err, s) => (.error err, s)
  | (.ok inputMedias, s) =>
    let req : MessagesSendMultiMediaRequest := ⟨peer, inputMedias⟩
    let reply := env.MessagesSendMultiMedia s.nSendMultiMedia
    let s := (s.log (.MessagesSendMultiMedia req)).tickSendMultiMedia
    match reply with
    | .error err => (.error (.wrap "MessagesSendMultiMedia" err), s.log (.print "Error"))
    | .ok (.updates upd) =>
      match findMessageID upd with
      | some id => (.ok id, s)
      | none => (.error (.new "could not find new message ID in updates (multiMedia)"), s)
    | .ok (.other _) => (.error (.new "unexpected response type from sendMultiMedia"), s)

/-! ## process.go -/

/-- A call of `limiter.Wait(ctx)`. -/
def limiterWait (env : Env) (s : State) : Option Error × State :=
  let reply := env.limiterWait s.nWait
  (reply, (s.log (.limiterWait reply.isNone)).tickWait)

/-- The `for _, m := range albumBuf` loop of `flushAlbum`, which sends the messages without
media as text and collects `items`. -/
def flushLoop (env : Env) (targetChannel : InputPeerChannel) :
    List Message → (items : List MultiMediaItem) → State → Except Error (List MultiMediaItem) × State
  | [], items, s => (.ok items, s)
  | m :: rest, items, s =>
    match m.Media with
    | none =>
      let s := s.log (.print "СООБЩЕНИЕ БЕЗ МЕДИА")
      match limiterWait env s with
      | (some err, s) => (.error (.wrap "rate limit wait" err), s)
      | (none, s) =>
        match sendTextMessage env s targetChannel m.Message m.Entities with
        | (.error err, s) => (.error err, s)
        | (.ok _, s) => flushLoop env targetChannel rest items s
    | some (.messageMediaPhoto photo) =>
      match photo with
      | some photo =>
        match photo.AsNotEmpty with
        | some p =>
          flushLoop env targetChannel rest
            (items ++ [⟨.inputMediaPhoto p.AsInput, m.Message, m.Entities⟩]) s
        | none => flushLoop env targetChannel rest items s
      | none => flushLoop env targetChannel rest items s
    | some (.messageMediaDocument doc) =>
      match doc with
      | some doc =>
        match doc.AsNotEmpty with
        | some d =>
          flushLoop env targetChannel rest
            (items ++ [⟨.inputMediaDocument d.AsInput, m.Message, m.Entities⟩]) s
        | none => flushLoop env targetChannel rest items s
      | none => flushLoop env targetChannel rest items s
    | some (.other _) =>
      flushLoop env targetChannel rest items (s.log (.print "Unhandled media type:"))

/-- The closure `flushAlbum` of `ProcessChannels`. -/
def flushAlbum (env : Env) (targetChannel : InputPeerChannel) (s : State) :
    Option Error × State :=
  if s.albumBuf.length = 0 then (none, s)
  else
    match flushLoop env targetChannel s.albumBuf [] s with
    | (.error err, s) => (some err, s)
    | (.ok items, s) =>
      let s := s.clearAlbum
      if items.length = 0 then (none, s)
      else
        match limiterWait env s with
        | (some err, s) => (some (.wrap "rate limit wait" err), s)
        | (none, s) =>
          match sendMultiMedia env s targetChannel items with
          | (.error err, s) =>
            if IsChatForwardsRestricted err then
              (none, (s.log (.print "true")).log (.print "ChatForwardsRestricted error:"))
            else (none, s)
          | (.ok _, s) => (none, s)

/-- The body of the loop `for _, msg := range messages` of `ProcessChannels`. -/
def loopBody (env : Env) (targetChannel : InputPeerChannel) (s : State) (msg : Message) :
    Res Unit × State :=
  if msg.GroupedID = 0 then
    match flushAlbum env targetChannel s with
    | (some err, s) => (.err err, s)
    | (none, s) =>
      match msg.Media with
      | some (.messageMediaPhoto photo) =>
        match photo with
        | none => (.panic "invalid memory address or nil pointer dereference", s)
        | some photo =>
          match photo.AsNotEmpty with
          | some photo =>
            match limiterWait env s with
            | (some err, s) => (.err (.wrap "rate limit wait" err), s)
            | (none, s) =>
              match sendMedia env s targetChannel (.inputMediaPhoto photo.AsInput)
                  msg.Message msg.Entities with
              | (.error err, s) => (.err err, s)
              | (.ok _, s) => (.ok (), s)
          | none => (.ok (), s)
      | some (.messageMediaDocument doc) =>
        match doc with
        | none => (.panic "invalid memory address or nil pointer dereference", s)
        | some doc =>
          match doc.AsNotEmpty with
          | some doc =>
            match limiterWait env s with
            | (some err, s) => (.err (.wrap "rate limit wait" err), s)
            | (none, s) =>
              match sendMedia env s targetChannel (.inputMediaDocument doc.AsInput)
                  msg.Message msg.Entities with
              | (.error err, s) => (.err err, s)
              | (.ok _, s) => (.ok (), s)
          | none => (.ok (), s)
      | some (.other _) => (.ok (), s.log (.print "Unhandled media type:"))
      | none =>
        match limiterWait env s with
        | (some err, s) => (.err (.wrap "rate limit wait" err), s)
        | (none, s) =>
          match sendTextMessage env s targetChannel msg.Message msg.Entities with
          | (.error err, s) => (.err err, s)
          | (.ok _, s) => (.ok (), s)
  else if s.currentGroupID = 0 then
    (.ok (), s.startAlbum msg)
  else if msg.GroupedID = s.currentGroupID then
    (.ok (), s.appendAlbum msg)
  else
    match flushAlbum env targetChannel s with
    | (some err, s) => (.err err, s)
    | (none, s) => (.ok (), s.startAlbum msg)

/-- The loop `for _, msg := range messages` of `ProcessChannels`. -/
def dispatchLoop (env : Env) (targetChannel : InputPeerChannel) :
    List Message → State → Res Unit × State
  | [], s => (.ok (), s)
  | msg :: rest, s =>
    match loopBody env targetChannel s msg with
    | (.ok _, s) => dispatchLoop env targetChannel rest s
    | r => r

/-- The dispatcher of `ProcessChannels`: the loop over the messages and the `flushAlbum`
that follows it. -/
def dispatch (env : Env) (targetChannel : InputPeerChannel) (messages : List Message)
    (s : State) : Res Unit × State :=
  match dispatchLoop env targetChannel messages s with
  | (.ok _, s) =>
    match flushAlbum env targetChannel s with
    | (some err, s) => (.err err, s)
    | (none, s) => (.ok (), s)
  | r => r

/-- Go `errors.Is(err, context.Canceled)`. -/
def Error.isCanceled : Error → Bool
  | .canceled => true
  | .wrap _ cause => cause.isCanceled
  | _ => false

/-- The function that `ProcessChannels` hands to `tgClient.Run` (process.go:58-212).  `fuel`
bounds the number of history requests of the fetch. -/
def runCallback (env : Env) (fuel : Nat) (srcChatID targetChatID : Int) : Res Unit × State :=
  match env.auth with
  | some err => (.err (.wrap "auth" err), State.init)
  | none =>
    match fetchChannelMessages env fuel State.init srcChatID with
    | (.err err, s) => (.err (.wrap "fetch messages" err), s)
    | (.panic reason, s) => (.panic reason, s)
    | (.diverge, s) => (.diverge, s)
    | (.ok messages, s) =>
      match getPeerChannel env s targetChatID with
      | (.err err, s) => (.err (.wrap "target channel" err), s)
      | (.panic reason, s) => (.panic reason, s)
      | (.diverge, s) => (.diverge, s)
      | (.ok targetChannel, s) => dispatch env targetChannel messages s

/-- Library method `telegram.Client.Run`, as far as the result of the function it runs goes:
an error of that function comes back wrapped in "callback", except that `Run` returns `nil`
when the error is a context cancellation. -/
def clientRun (r : Res Unit × State) : Res Unit × State :=
  match r with
  | (.err err, s) =>
    if (Error.wrap "callback" err).isCanceled then (.ok (), s)
    else (.err (.wrap "callback" err), s)
  | r => r

/-- Library method `floodwait.Waiter.Run`, as far as the result of the function it runs goes:
it returns that result. -/
def waiterRun (r : Res Unit × State) : Res Unit × State := r

/-- Function `ProcessChannels` of process.go.  `fuel` bounds the number of history requests
of the fetch. -/
def ProcessChannels (env : Env) (fuel : Nat) (srcChatID targetChatID : Int) : Res Unit × State :=
  match env.mkdirAll with
  | some err => (.err (.wrap "create session dir" err), State.init)
  | none => waiterRun (clientRun (runCallback env fuel srcChatID targetChatID))

/-! ## Concrete runs -/

/-- An environment in which every call succeeds: both channels resolve, the source channel
has no messages, admission is always granted and every send is acknowledged. -/
def Env.quiet : Env where
  mkdirAll := none
  auth := none
  ChannelsGetChannels := fun n => .ok (.messagesChats [.channel (Int.ofNat n) 77])
  MessagesGetHistory := fun _ => .ok (.messagesChannelMessages [])
  ctxDone := fun _ => false
  limiterWait := fun _ => none
  randInt := fun n => some (Int.ofNat n)
  MessagesSendMessage := fun n => .ok (.updates [.updateMessageID (Int.ofNat n)])
  MessagesSendMedia := fun n => .ok (.updates [.updateMessageID (Int.ofNat n)])
  MessagesSendMultiMedia := fun n => .ok (.updates [.updateMessageID (Int.ofNat n)])

/-- The environment `Env.quiet` with a source channel whose history is the one page `page`
(newest first), followed by an empty page. -/
def Env.withHistory (page : List Message) : Env :=
  { Env.quiet with
    MessagesGetHistory := fun n =>
      if n = 0 then .ok (.messagesChannelMessages (page.map MessageClass.message))
      else .ok (.messagesChannelMessages []) }

def textMsg (id : Int) (text : String) (group : Int) : Message :=
  ⟨id, text, [], none, group⟩

def photoMsg (id : Int) (caption : String) (group : Int) : Message :=
  ⟨id, caption, [], some (.messageMediaPhoto (some (.photo ⟨id, 7, []⟩))), group⟩

/-- The texts handed to `sendTextMessage`, in order. -/
def textsSent : List Event → List String
  | [] => []
  | .sendTextMessage _ text _ :: rest => text :: textsSent rest
  | _ :: rest => textsSent rest

/-- The supported media of a message, as `flushAlbum` and the loop build it: the input form
of a photo or document that is present and not empty. -/
def Message.supportedMedia (m : TgForwarder.Message) : Option InputMediaClass :=
  match m.Media with
  | some (.messageMediaPhoto (some (.photo p))) => some (.inputMediaPhoto p.AsInput)
  | some (.messageMediaDocument (some (.document d))) => some (.inputMediaDocument d.AsInput)
  | _ => none

/-- The media of the message is a photo or a document whose object is absent (`nil`). -/
def Message.mediaObjectAbsent (m : TgForwarder.Message) : Bool :=
  match m.Media with
  | some (.messageMediaPhoto none) => true
  | some (.messageMediaDocument none) => true
  | _ => false

/-- A send as the remote service receives it (the `DispatchItem` of the data model). -/
inductive DispatchItem where
  | TextSend (body : String) (entities : List MessageEntity)
  | MediaSend (media : InputMediaClass) (caption : String) (entities : List MessageEntity)
  | BatchSend (entries : List (InputMediaClass × String × List MessageEntity))
deriving DecidableEq, Repr

/-- The sends that reached the remote service, in order. -/
def dispatched : List Event → List DispatchItem
  | [] => []
  | .MessagesSendMessage req :: rest => .TextSend req.Message req.Entities :: dispatched rest
  | .MessagesSendMedia req :: rest =>
    .MediaSend req.Media req.Message req.Entities :: dispatched rest
  | .MessagesSendMultiMedia req :: rest =>
    .BatchSend (req.MultiMedia.map fun im => (im.Media, im.Message, im.Entities))
      :: dispatched rest
  | _ :: rest => dispatched rest

/-- What identifies a source message in a send: body and entities for a message without
media, the media for a message with supported media. -/
inductive Carried where
  | text (body : String) (entities : List MessageEntity)
  | media (media : InputMediaClass)
deriving DecidableEq, Repr

def Message.carried (m : TgForwarder.Message) : Option Carried :=
  match m.Media with
  | none => some (.text m.Message m.Entities)
  | some _ => m.supportedMedia.map Carried.media

/-- The source messages a send carries, a batch send giving its entries in entry order. -/
def DispatchItem.carried : DispatchItem → List Carried
  | .TextSend body entities => [.text body entities]
  | .MediaSend media _ _ => [.media media]
  | .BatchSend entries => entries.map fun e => .media e.1

/-- The source messages carried by the sends of a trace, in the order of the sends. -/
def carriedBy (trace : List Event) : List Carried :=
  (dispatched trace).flatMap DispatchItem.carried

def Event.isSend : Event → Bool
  | .sendTextMessage .. => true
  | .sendMedia .. => true
  | .sendMultiMedia .. => true
  | _ => false

def Event.isFetch : Event → Bool
  | .ChannelsGetChannels .. => true
  | .MessagesGetHistory .. => true
  | _ => false

def Event.isWait : Event → Bool
  | .limiterWait _ => true
  | _ => false

/-- A message whose media is a photo without its photo object. -/
def expiredPhotoMsg (id : Int) (group : Int) : Message :=
  ⟨id, "", [], some (.messageMediaPhoto none), group⟩

/-- A message whose media is a geo point. -/
def geoMsg (id : Int) (group : Int) : Message :=
  ⟨id, "here", [], some (.other "messageMediaGeo"), group⟩

def Env.restrictedText (page : List Message) : Env :=
  { Env.withHistory page with
    MessagesSendMessage := fun n =>
      if n = 0 then .error (.rpc .chatForwardsRestricted 0)
      else .ok (.updates [.updateMessageID (Int.ofNat n)]) }

def Env.restrictedMedia (page : List Message) : Env :=
  { Env.withHistory page with
    MessagesSendMedia := fun n =>
      if n = 0 then .error (.rpc .chatForwardsRestricted 0)
      else .ok (.updates [.updateMessageID (Int.ofNat n)]) }

def Env.oddBatchResponse (page : List Message) : Env :=
  { Env.withHistory page with
    MessagesSendMultiMedia := fun _ => .ok (.other "updateShortSentMessage") }

def Env.restrictedBatch (page : List Message) : Env :=
  { Env.withHistory page with
    MessagesSendMultiMedia := fun _ => .error (.rpc .chatForwardsRestricted 0) }

/-- The environment `Env.withHistory page` in which the run is cancelled while it waits for
the rate limiter: `limiter.Wait` returns the error of the context. -/
def Env.cancelledWait (page : List Message) : Env :=
  { Env.withHistory page with limiterWait := fun _ => some .canceled }

def Env.chats (chats : List ChatClass) : Env :=
  { Env.quiet with ChannelsGetChannels := fun _ => .ok (.messagesChats chats) }

/-- The page ends the fetch: it is not a `*tg.MessagesChannelMessages`, or it has no
messages. -/
def MessagesMessagesClass.endsFetch : MessagesMessagesClass → Bool
  | .messagesChannelMessages (_ :: _) => false
  | _ => true

/-- An environment whose source channel has the two pages `[5, 4]` and `[3, service 2, 1]`
(newest first), followed by an empty page. -/
def Env.twoPages : Env :=
  { Env.quiet with
    MessagesGetHistory := fun n =>
      if n = 0 then .ok (.messagesChannelMessages
        [.message (textMsg 5 "e" 0), .message (textMsg 4 "d" 0)])
      else if n = 1 then .ok (.messagesChannelMessages
        [.message (textMsg 3 "c" 0), .messageService 2, .message (textMsg 1 "a" 0)])
      else .ok (.messagesChannelMessages []) }

/-- The environment without the reply to the `j`-th history request (and without the flood
wait that followed it). -/
def Env.dropHistoryReply (env : Env) (j : Nat) : Env :=
  { env with
    MessagesGetHistory := fun n =>
      if n < j then env.MessagesGetHistory n else env.MessagesGetHistory (n + 1)
    ctxDone := fun n => if n < j then env.ctxDone n else env.ctxDone (n + 1) }

/-- The cursors (`OffsetID`) of the history requests of a trace, in order. -/
def historyOffsets : List Event → List Int
  | [] => []
  | .MessagesGetHistory _ offsetID :: rest => offsetID :: historyOffsets rest
  | _ :: rest => historyOffsets rest

/-- An environment whose source channel answers the second history request with a flood
wait of 30 seconds, once. -/
def Env.floodOnce : Env :=
  { Env.quiet with
    MessagesGetHistory := fun n =>
      if n = 0 then .ok (.messagesChannelMessages
        [.message (textMsg 5 "e" 0), .message (textMsg 4 "d" 0)])
      else if n = 1 then .error (.rpc .floodWait 30)
      else if n = 2 then .ok (.messagesChannelMessages
        [.message (textMsg 3 "c" 0), .messageService 2, .message (textMsg 1 "a" 0)])
      else .ok (.messagesChannelMessages []) }

/-- Every send succeeds: admission is always granted, the random source can always be read,
and every send call is answered by updates that hold the new message ID. -/
structure AllSendsSucceed (env : Env) : Prop where
  wait : ∀ n, env.limiterWait n = none
  rand : ∀ n, ∃ r, env.randInt n = some r
  text : ∀ n, ∃ upd id,
    env.MessagesSendMessage n = .ok (.updates upd) ∧ findMessageID upd = some id
  media : ∀ n, ∃ upd id,
    env.MessagesSendMedia n = .ok (.updates upd) ∧ findMessageID upd = some id
  multi : ∀ n, ∃ upd id,
    env.MessagesSendMultiMedia n = .ok (.updates upd) ∧ findMessageID upd = some id

/-- The batch item of a message with supported media: its media, with its body as caption
and its entities. -/
def Message.toItem (m : TgForwarder.Message) : Option MultiMediaItem :=
  m.supportedMedia.map fun im => ⟨im, m.Message, m.Entities⟩

/-- The text sends of the messages without media, in order. -/
def textSends (buf : List Message) : List DispatchItem :=
  (buf.filter fun m => m.Media.isNone).map fun m => .TextSend m.Message m.Entities

/-- The entries of a batch send: the first keeps its caption and entities, the others carry
none. -/
def batchEntries : List MultiMediaItem → List (InputMediaClass × String × List MessageEntity)
  | [] => []
  | first :: rest =>
    (first.Media, first.Caption, first.Entities) :: rest.map fun it => (it.Media, "", [])

/-- The batch send of an album: one send for its supported-media items, none when it has no
such item. -/
def batchSends (buf : List Message) : List DispatchItem :=
  match buf.filterMap Message.toItem with
  | [] => []
  | items => [.BatchSend (batchEntries items)]

/-- The sends of the flush of an album. -/
def flushSends (buf : List Message) : List DispatchItem :=
  textSends buf ++ batchSends buf

/-- The sends for a standalone message: a text send without media, a single-media send with
supported media, nothing otherwise. -/
def standaloneSends (m : Message) : List DispatchItem :=
  match m.Media with
  | none => [.TextSend m.Message m.Entities]
  | some _ =>
    match m.supportedMedia with
    | some im => [.MediaSend im m.Message m.Entities]
    | none => []

/-- The sends issued by a run that started in state `s`. -/
def issued (s : State) (r : Res Unit × State) : List DispatchItem :=
  dispatched (r.2.trace.drop s.trace.length)

/-- From `s` to `s'` the trace grew by events whose sends are `items`. -/
def Emits (s s' : State) (items : List DispatchItem) : Prop :=
  ∃ evs, s'.trace = s.trace ++ evs ∧ dispatched evs = items

/-- From `s` to `s'` the trace grew by events whose sends are `items`, and the album
variables did not change. -/
def Sends (s s' : State) (items : List DispatchItem) : Prop :=
  Emits s s' items ∧ s'.albumBuf = s.albumBuf ∧ s'.currentGroupID = s.currentGroupID

/-- The entries built by the first loop of `sendMultiMedia` from index `i` on. -/
def captioned (i : Nat) :
    List MultiMediaItem → List (InputMediaClass × String × List MessageEntity)
  | [] => []
  | it :: rest =>
    (if i = 0 then (it.Media, it.Caption, it.Entities) else (it.Media, "", []))
      :: captioned (i + 1) rest

/-- Two neighbours belong to the same album: they share a batch identifier that is not 0. -/
def sameAlbum (a b : Message) : Bool :=
  a.GroupedID != 0 && a.GroupedID == b.GroupedID

/-- The maximal runs of a message sequence: every standalone message alone, and every
maximal run of consecutive messages that share one non-zero batch identifier. -/
def albumRuns (msgs : List Message) : List (List Message) :=
  msgs.splitBy sameAlbum

/-- The run is a standalone message whose photo or document object is absent. -/
def crashes (run : List Message) : Bool :=
  run.any fun m => m.GroupedID == 0 && m.mediaObjectAbsent

/-- The sends of one maximal run: those of the message for a standalone message, those of
the flush for an album. -/
def runSends : List Message → List DispatchItem
  | [] => []
  | m :: rest =>
    if m.GroupedID = 0 then (m :: rest).flatMap standaloneSends else flushSends (m :: rest)

/-- The sends of the dispatcher on a message sequence when every send succeeds: the sends of
the maximal runs, in order, up to the first run that makes the loop panic. -/
def closedForm (msgs : List Message) : List DispatchItem :=
  ((albumRuns msgs).takeWhile fun run => !crashes run).flatMap runSends

/-- The album buffer holds messages of the current group, and that group is not 0. -/
def AlbumInv (s : State) : Prop :=
  ∀ m ∈ s.albumBuf, m.GroupedID = s.currentGroupID ∧ s.currentGroupID ≠ 0

/-- The order in which the flush of an album takes its messages: those without media
first, then the others. -/
def albumOrder (run : List Message) : List Message :=
  (run.filter fun m => m.Media.isNone) ++ run.filter fun m => m.Media.isSome

/-- The input sequence with, inside every maximal run, the messages without media moved
ahead of the others. -/
def reordered (msgs : List Message) : List Message :=
  (albumRuns msgs).flatMap albumOrder

/-- The event is neither a send attempt, nor an acquisition, nor a fetch or resolve call. -/
def Event.isQuiet (e : Event) : Bool :=
  !e.isSend && !e.isWait && !e.isFetch

/-- The pacing automaton: it reads a trace and accepts it when every granted acquisition is
directly followed by a send attempt, every send attempt directly follows a granted
acquisition, and a refused acquisition is the last event.  `pending` says that the event
before was a granted acquisition. -/
def paced : (pending : Bool) → List Event → Bool
  | pending, [] => !pending
  | pending, e :: rest =>
    if pending then e.isSend && paced false rest
    else
      match e with
      | .limiterWait true => paced true rest
      | .limiterWait false => rest.isEmpty
      | e => !e.isSend && paced false rest

/-- The events of a piece of the dispatcher that ended with the error `failure` (`none`
without an error): they are well paced, they hold a refused acquisition only when the piece
failed with the error of the limiter, wrapped in "rate limit wait", and none of them is a
fetch or resolve call. -/
structure Seg (failure : Option Error) (evs : List Event) : Prop where
  paced : paced false evs = true
  refused : Event.limiterWait false ∈ evs →
    ∃ cause, failure = some (.wrap "rate limit wait" cause)
  noFetch : ∀ e ∈ evs, e.isFetch = false

/-- The error of an outcome, if it is one. -/
def Res.failure {α : Type} : Res α → Option Error
  | .err e => some e
  | _ => none

/-- The error of a Go result, if it is one. -/
def failureOf {α : Type} : Except Error α → Option Error
  | .error e => some e
  | .ok _ => none

/-! ## The claims settled by evaluation -/

/-- C8: `getPeerChannel` does not fail with an error when the lookup succeeds but gives no
accessible channel: on an empty chat list, and on a list whose first chat is a forbidden
channel, it panics, and so does the run. -/
theorem getPeerChannel_panics_without_channel :
    (getPeerChannel (Env.chats []) State.init 42).1
        = .panic "index out of range [0] with length 0"
      ∧ (getPeerChannel (Env.chats [.channelForbidden 42 0]) State.init 42).1
        = .panic "interface conversion: tg.ChatClass is not *tg.Channel"
      ∧ (ProcessChannels (Env.chats []) 5 42 43).1
        = .panic "index out of range [0] with length 0" := by
  refine ⟨rfl, rfl, rfl⟩

/-- C10: a standalone message whose photo object is absent makes the loop panic; the message
after it is never processed. -/
theorem standalone_absent_photo_panics :
    (ProcessChannels (Env.withHistory [textMsg 2 "after" 0, expiredPhotoMsg 1 0]) 5 1 2).1
        = .panic "invalid memory address or nil pointer dereference"
      ∧ textsSent (ProcessChannels
          (Env.withHistory [textMsg 2 "after" 0, expiredPhotoMsg 1 0]) 5 1 2).2.trace = []
      ∧ (ProcessChannels (Env.withHistory [textMsg 2 "after" 0, expiredPhotoMsg 1 5]) 5 1 2).1
        = .ok ()
      ∧ textsSent (ProcessChannels
          (Env.withHistory [textMsg 2 "after" 0, expiredPhotoMsg 1 5]) 5 1 2).2.trace
        = ["after"] := by
  refine ⟨rfl, rfl, rfl, rfl⟩

/-- C4: a restricted-content rejection of a text send, and of a single-media send, aborts
the run with an error; the message after it is never sent.  The same rejection of a batch
send is recovered: the run goes on and returns success. -/
theorem restricted_single_send_aborts :
    (ProcessChannels (Env.restrictedText [textMsg 2 "second" 0, textMsg 1 "first" 0]) 5 1 2).1
        = .err (.wrap "callback" (.new "unexpected response type from sendMessage"))
      ∧ textsSent (ProcessChannels
          (Env.restrictedText [textMsg 2 "second" 0, textMsg 1 "first" 0]) 5 1 2).2.trace
        = ["first"]
      ∧ (ProcessChannels (Env.restrictedMedia [textMsg 2 "second" 0, photoMsg 1 "B" 0]) 5 1 2).1
        = .err (.wrap "callback" (.new "unexpected response type from sendMedia"))
      ∧ textsSent (ProcessChannels
          (Env.restrictedMedia [textMsg 2 "second" 0, photoMsg 1 "B" 0]) 5 1 2).2.trace
        = []
      ∧ (ProcessChannels (Env.restrictedBatch [textMsg 2 "second" 0, photoMsg 1 "B" 5]) 5 1 2).1
        = .ok ()
      ∧ textsSent (ProcessChannels
          (Env.restrictedBatch [textMsg 2 "second" 0, photoMsg 1 "B" 5]) 5 1 2).2.trace
        = ["second"] := by
  refine ⟨rfl, rfl, rfl, rfl, rfl, rfl⟩

/-- C5: a batch send whose response is not `*tg.Updates` fails in `sendMultiMedia`, but
`flushAlbum` drops the error: the run goes on, sends the next message and returns success. -/
theorem odd_batch_response_is_swallowed :
    (sendMultiMedia (Env.oddBatchResponse []) State.init ⟨2, 77⟩
        [⟨.inputMediaPhoto ⟨1, 7, []⟩, "B", []⟩]).1
        = .error (.new "unexpected response type from sendMultiMedia")
      ∧ (ProcessChannels (Env.oddBatchResponse [textMsg 2 "after" 0, photoMsg 1 "B" 5]) 5 1 2).1
        = .ok ()
      ∧ dispatched (ProcessChannels
          (Env.oddBatchResponse [textMsg 2 "after" 0, photoMsg 1 "B" 5]) 5 1 2).2.trace
        = [.BatchSend [(.inputMediaPhoto ⟨1, 7, []⟩, "B", [])], .TextSend "after" []] := by
  refine ⟨rfl, rfl, rfl⟩

/-- C1: a standalone photo without its photo object before an album makes the loop panic
before the album is flushed: no batch send is issued for the album, in the dispatcher and in
the run. -/
theorem album_after_absent_photo_gets_no_batch :
    (dispatch Env.quiet ⟨2, 77⟩
        ([expiredPhotoMsg 1 0] ++ [photoMsg 2 "B" 5, photoMsg 3 "" 5] ++ []) State.init).1
        = .panic "invalid memory address or nil pointer dereference"
      ∧ issued State.init (dispatch Env.quiet ⟨2, 77⟩
          ([expiredPhotoMsg 1 0] ++ [photoMsg 2 "B" 5, photoMsg 3 "" 5] ++ []) State.init) = []
      ∧ (ProcessChannels (Env.withHistory
          [photoMsg 3 "" 5, photoMsg 2 "B" 5, expiredPhotoMsg 1 0]) 5 1 2).1
        = .panic "invalid memory address or nil pointer dereference"
      ∧ dispatched (ProcessChannels (Env.withHistory
          [photoMsg 3 "" 5, photoMsg 2 "B" 5, expiredPhotoMsg 1 0]) 5 1 2).2.trace = []
      ∧ dispatched (ProcessChannels (Env.withHistory
          [photoMsg 3 "" 5, photoMsg 2 "B" 5]) 5 1 2).2.trace
        = [.BatchSend [(.inputMediaPhoto ⟨2, 7, []⟩, "B", []),
            (.inputMediaPhoto ⟨3, 7, []⟩, "", [])]] := by
  refine ⟨rfl, rfl, rfl, rfl, rfl⟩

/-- C7, as stated, fails: when the acquisition is refused because the run is cancelled, the
callback returns the error, no send follows, and the run returns `nil`, not an error. -/
theorem cancelled_wait_returns_nil :
    (ProcessChannels (Env.cancelledWait [textMsg 1 "first" 0]) 5 1 2).2.trace
        = [.ChannelsGetChannels 1, .MessagesGetHistory ⟨1, 77⟩ 0, .MessagesGetHistory ⟨1, 77⟩ 1,
            .ChannelsGetChannels 2, .limiterWait false]
      ∧ (runCallback (Env.cancelledWait [textMsg 1 "first" 0]) 5 1 2).1
        = .err (.wrap "rate limit wait" .canceled)
      ∧ (ProcessChannels (Env.cancelledWait [textMsg 1 "first" 0]) 5 1 2).1 = .ok ()
      ∧ (ProcessChannels (Env.cancelledWait [textMsg 1 "first" 0]) 5 1 2).1.failure = none := by
  refine ⟨rfl, rfl, rfl, rfl⟩

/-- C3, as stated, fails: a standalone message that carries a geo point gets no send. -/
theorem standalone_unsupported_media_not_sent :
    (geoMsg 1 0).GroupedID = 0 ∧ (geoMsg 1 0).Media.isSome = true
      ∧ (loopBody Env.quiet ⟨2, 77⟩ State.init (geoMsg 1 0)).1 = .ok ()
      ∧ ((loopBody Env.quiet ⟨2, 77⟩ State.init (geoMsg 1 0)).2.trace.filter Event.isSend) = []
      ∧ dispatched (loopBody Env.quiet ⟨2, 77⟩ State.init (geoMsg 1 0)).2.trace = [] := by
  refine ⟨rfl, rfl, rfl, rfl, rfl⟩

/-- C2, as stated, fails: in the album made of a photo followed by a text, the text is sent
before the photo, so the messages carried by the sends are not a subsequence of the input. -/
theorem album_text_overtakes_media :
    carriedBy (dispatch Env.quiet ⟨2, 77⟩ [photoMsg 1 "B" 5, textMsg 2 "T" 5] State.init).2.trace
        = [.text "T" [], .media (.inputMediaPhoto ⟨1, 7, []⟩)]
      ∧ ¬ (carriedBy (dispatch Env.quiet ⟨2, 77⟩
            [photoMsg 1 "B" 5, textMsg 2 "T" 5] State.init).2.trace).Sublist
          ([photoMsg 1 "B" 5, textMsg 2 "T" 5].filterMap Message.carried) := by
  refine ⟨rfl, ?_⟩
  decide

/-! ## The history fetch -/

/-- The invariant of the swap loop: after `i` iterations the first `i` and the last `i`
places hold the mirrored elements and the middle is untouched. -/
theorem swapLoop_eq_reverse {α : Type} (l : List α) :
    ∀ (todo i : Nat) (r : List α), r.length = l.length → i + todo = l.length / 2 →
      (∀ k, k < l.length →
        r[k]? = if k < i ∨ l.length - i ≤ k then l[l.length - 1 - k]? else l[k]?) →
      swapLoop l.length todo i r = l.reverse := by
  intro todo
  induction todo with
  | zero =>
    intro i r hlen hi hinv
    simp only [swapLoop]
    apply List.ext_getElem?
    intro k
    by_cases hk : k < l.length
    · rw [hinv k hk, List.getElem?_reverse hk]
      split
      · rfl
      · next hmid =>
        have : l.length - 1 - k = k := by omega
        rw [this]
    · rw [List.getElem?_eq_none (by omega), List.getElem?_eq_none (by simp; omega)]
  | succ todo ih =>
    intro i r hlen hi hinv
    have h1 : i < l.length := by omega
    have h2 : l.length - 1 - i < l.length := by omega
    have e1 : r[i]? = l[i]? := by
      rw [hinv i h1, if_neg (by omega)]
    have e2 : r[l.length - 1 - i]? = l[l.length - 1 - i]? := by
      rw [hinv _ h2, if_neg (by omega)]
    have g1 : l[i]? = some l[i] := List.getElem?_eq_getElem h1
    have g2 : l[l.length - 1 - i]? = some l[l.length - 1 - i] := List.getElem?_eq_getElem h2
    rw [swapLoop, e1, e2, g1, g2]
    apply ih
    · simp [hlen]
    · omega
    · intro k hk
      rw [List.getElem?_set, List.getElem?_set]
      simp only [List.length_set, hlen]
      by_cases c1 : l.length - 1 - i = k
      · have hk' : l.length - 1 - k = i := by omega
        rw [if_pos c1, if_pos h2, if_pos (by omega), hk', g1]
      · rw [if_neg c1]
        by_cases c2 : i = k
        · rw [if_pos c2, if_pos h1, if_pos (by omega), ← c2, g2]
        · rw [if_neg c2, hinv k hk]
          by_cases c3 : k < i ∨ l.length - i ≤ k
          · rw [if_pos c3, if_pos (by omega)]
          · rw [if_neg c3, if_neg (by omega)]

/-- The reversal in place is the reversal of the list. -/
theorem reverseInPlace_eq_reverse {α : Type} (l : List α) : reverseInPlace l = l.reverse := by
  unfold reverseInPlace
  apply swapLoop_eq_reverse l _ 0 l rfl (by omega)
  intro k hk
  rw [if_neg (by omega)]

/-- The loop of the fetch on a run of non-empty pages followed by a page that ends the
fetch: it leaves the regular messages of the pages, in the order received. -/
theorem fetchLoop_pages (env : Env) (peer : InputPeerChannel) :
    ∀ (pages : List (List MessageClass)) (fuel : Nat) (off : Int) (acc : List Message)
      (s : State) (stop : MessagesMessagesClass),
      (∀ i (h : i < pages.length),
        env.MessagesGetHistory (s.nHistory + i) = .ok (.messagesChannelMessages pages[i])
          ∧ pages[i] ≠ []) →
      env.MessagesGetHistory (s.nHistory + pages.length) = .ok stop →
      stop.endsFetch = true →
      pages.length < fuel →
      (fetchLoop env peer fuel off acc s).1
        = .ok (acc ++ pages.flatten.filterMap MessageClass.asMessage) := by
  intro pages
  induction pages with
  | nil =>
    intro fuel off acc s stop _ hstop hends hfuel
    obtain ⟨fuel, rfl⟩ : ∃ f, fuel = f + 1 := ⟨fuel - 1, by simp at hfuel; omega⟩
    simp only [List.length_nil, Nat.add_zero] at hstop
    cases stop with
    | messagesChannelMessages ms =>
      cases ms with
      | nil => simp [fetchLoop, hstop]
      | cons m ms => simp [MessagesMessagesClass.endsFetch] at hends
    | messagesMessages ms => simp [fetchLoop, hstop]
    | messagesMessagesSlice ms => simp [fetchLoop, hstop]
    | messagesMessagesNotModified c => simp [fetchLoop, hstop]
  | cons p ps ih =>
    intro fuel off acc s stop hpages hstop hends hfuel
    obtain ⟨fuel, rfl⟩ : ∃ f, fuel = f + 1 := ⟨fuel - 1, by simp at hfuel; omega⟩
    have h0 := hpages 0 (by simp)
    simp only [Nat.add_zero, List.getElem_cons_zero] at h0
    obtain ⟨last, hlast⟩ : ∃ last, p.getLast? = some last := by
      cases hp : p.getLast? with
      | none => exact absurd (List.getLast?_eq_none_iff.mp hp) h0.2
      | some last => exact ⟨last, rfl⟩
    rw [fetchLoop]
    simp only [h0.1, hlast]
    rw [ih fuel _ _ _ stop]
    · simp [List.append_assoc]
    · intro i hi
      have := hpages (i + 1) (by simp; omega)
      simpa [State.log, State.tickHistory, State.tickChannels, Nat.add_assoc, Nat.add_comm 1 i] using this
    · simpa [State.log, State.tickHistory, State.tickChannels, Nat.add_assoc, Nat.add_comm 1] using hstop
    · exact hends
    · simp at hfuel; omega

/-- C6: when the source channel resolves, and the remote returns the non-empty pages `pages`
followed by a page that is empty or malformed, `fetchChannelMessages` (with fuel for these
requests) returns the regular messages of `pages`, each once, in the reverse of the order
received; if their identifiers were strictly decreasing as received, the result has strictly
increasing identifiers; and with no page before the empty one the result is empty. -/
theorem fetchChannelMessages_reverses_pages (env : Env) (s : State) (chatID : Int)
    (fuel : Nat) (chats : MessagesChatsClass) (id accessHash : Int) (others : List ChatClass)
    (pages : List (List MessageClass)) (stop : MessagesMessagesClass)
    (hresolve : env.ChannelsGetChannels s.nChannels = .ok chats)
    (hchats : chats.GetChats = .channel id accessHash :: others)
    (hpages : ∀ i (h : i < pages.length),
      env.MessagesGetHistory (s.nHistory + i) = .ok (.messagesChannelMessages pages[i])
        ∧ pages[i] ≠ [])
    (hstop : env.MessagesGetHistory (s.nHistory + pages.length) = .ok stop)
    (hends : stop.endsFetch = true)
    (hfuel : pages.length < fuel) :
    ∃ result, (fetchChannelMessages env fuel s chatID).1 = .ok result
      ∧ result = (pages.flatten.filterMap MessageClass.asMessage).reverse
      ∧ ((pages.flatten.filterMap MessageClass.asMessage).Pairwise (fun a b => b.ID < a.ID) →
          result.Pairwise (fun a b => a.ID < b.ID))
      ∧ (pages = [] → result = []) := by
  refine ⟨_, ?_, rfl, ?_, ?_⟩
  · have hloop := fetchLoop_pages env ⟨chatID, accessHash⟩ pages fuel 0 []
      (s.log (.ChannelsGetChannels chatID)).tickChannels stop
      (by simpa [State.log, State.tickHistory, State.tickChannels] using hpages) (by simpa [State.log, State.tickHistory, State.tickChannels] using hstop) hends hfuel
    simp only [fetchChannelMessages, getPeerChannel, hresolve, hchats]
    generalize hr : fetchLoop env ⟨chatID, accessHash⟩ fuel 0 []
      (s.log (.ChannelsGetChannels chatID)).tickChannels = r at hloop
    obtain ⟨r1, r2⟩ := r
    simp only at hloop
    subst hloop
    simp [reverseInPlace_eq_reverse]
  · intro h
    exact List.pairwise_reverse.mpr h
  · rintro rfl
    simp

/-- Witness of C6: two pages, then an empty page. -/
theorem fetchChannelMessages_reverses_pages_witness :
    ∃ result, (fetchChannelMessages Env.twoPages 3 State.init 1).1 = .ok result
      ∧ result = [textMsg 1 "a" 0, textMsg 3 "c" 0, textMsg 4 "d" 0, textMsg 5 "e" 0] := by
  obtain ⟨result, h1, h2, _⟩ := fetchChannelMessages_reverses_pages Env.twoPages State.init 1 3
    (.messagesChats [.channel 0 77]) 0 77 []
    [[.message (textMsg 5 "e" 0), .message (textMsg 4 "d" 0)],
     [.message (textMsg 3 "c" 0), .messageService 2, .message (textMsg 1 "a" 0)]]
    (.messagesChannelMessages []) rfl rfl
    (by
      intro i hi
      have : i = 0 ∨ i = 1 := by simp at hi; omega
      rcases this with rfl | rfl
      · exact ⟨rfl, by simp⟩
      · exact ⟨rfl, by simp⟩)
    rfl rfl (by decide)
  exact ⟨result, h1, h2.trans (by rfl)⟩

theorem historyOffsets_append (t u : List Event) :
    historyOffsets (t ++ u) = historyOffsets t ++ historyOffsets u := by
  induction t with
  | nil => rfl
  | cons e t ih => cases e <;> simp [historyOffsets, ih]

/-- The loop of the fetch only appends to the trace, and with fuel its first event is the
history request with the cursor it was given. -/
theorem fetchLoop_trace (env : Env) (peer : InputPeerChannel) :
    ∀ (fuel : Nat) (off : Int) (acc : List Message) (s : State),
      ∃ evs, (fetchLoop env peer fuel off acc s).2.trace = s.trace ++ evs
        ∧ (0 < fuel → ∃ rest, evs = .MessagesGetHistory peer off :: rest) := by
  intro fuel
  induction fuel with
  | zero => intro off acc s; exact ⟨[], by simp [fetchLoop], by simp⟩
  | succ fuel ih =>
    intro off acc s
    rw [fetchLoop]
    cases hr : env.MessagesGetHistory s.nHistory with
    | error err =>
      simp only
      split
      · obtain ⟨evs, h1, _⟩ := ih off acc
          (s.log (.MessagesGetHistory peer off)).tickHistory
        exact ⟨_ :: evs, by simpa [State.log, State.tickHistory, State.tickChannels] using h1, fun _ => ⟨evs, rfl⟩⟩
      · exact ⟨[_], by simp [State.log, State.tickHistory, State.tickChannels], fun _ => ⟨[], rfl⟩⟩
    | ok page =>
      cases page with
      | messagesChannelMessages ms =>
        simp only
        cases hl : ms.getLast? with
        | none => exact ⟨[_], by simp [State.log, State.tickHistory, State.tickChannels], fun _ => ⟨[], rfl⟩⟩
        | some last =>
          obtain ⟨evs, h1, _⟩ := ih last.GetID (acc ++ ms.filterMap MessageClass.asMessage)
            (s.log (.MessagesGetHistory peer off)).tickHistory
          exact ⟨_ :: evs, by simpa [State.log, State.tickHistory, State.tickChannels] using h1, fun _ => ⟨evs, rfl⟩⟩
      | messagesMessages ms => exact ⟨[_], by simp [State.log, State.tickHistory, State.tickChannels], fun _ => ⟨[], rfl⟩⟩
      | messagesMessagesSlice ms => exact ⟨[_], by simp [State.log, State.tickHistory, State.tickChannels], fun _ => ⟨[], rfl⟩⟩
      | messagesMessagesNotModified c => exact ⟨[_], by simp [State.log, State.tickHistory, State.tickChannels], fun _ => ⟨[], rfl⟩⟩

/-- Two runs of the loop of the fetch that receive the same replies from here on give the
same result and append the same events. -/
theorem fetchLoop_shift (env env' : Env) (peer : InputPeerChannel) :
    ∀ (fuel : Nat) (off : Int) (acc : List Message) (s s' : State),
      (∀ i, env.MessagesGetHistory (s.nHistory + i) = env'.MessagesGetHistory (s'.nHistory + i)) →
      (∀ i, env.ctxDone (s.nHistory + i) = env'.ctxDone (s'.nHistory + i)) →
      (fetchLoop env peer fuel off acc s).1 = (fetchLoop env' peer fuel off acc s').1
        ∧ ∃ evs, (fetchLoop env peer fuel off acc s).2.trace = s.trace ++ evs
          ∧ (fetchLoop env' peer fuel off acc s').2.trace = s'.trace ++ evs := by
  intro fuel
  induction fuel with
  | zero => intro off acc s s' _ _; exact ⟨rfl, [], by simp [fetchLoop], by simp [fetchLoop]⟩
  | succ fuel ih =>
    intro off acc s s' hh hc
    have h0 := hh 0
    have c0 := hc 0
    simp only [Nat.add_zero] at h0 c0
    have hstep : ∀ (o : Int) (a : List Message),
        (fetchLoop env peer fuel o a
            (s.log (.MessagesGetHistory peer off)).tickHistory).1
          = (fetchLoop env' peer fuel o a
            (s'.log (.MessagesGetHistory peer off)).tickHistory).1
        ∧ ∃ evs, (fetchLoop env peer fuel o a
            (s.log (.MessagesGetHistory peer off)).tickHistory).2.trace
              = s.trace ++ .MessagesGetHistory peer off :: evs
          ∧ (fetchLoop env' peer fuel o a
            (s'.log (.MessagesGetHistory peer off)).tickHistory).2.trace
              = s'.trace ++ .MessagesGetHistory peer off :: evs := by
      intro o a
      obtain ⟨e1, evs, e2, e3⟩ := ih o a
        (s.log (.MessagesGetHistory peer off)).tickHistory
        (s'.log (.MessagesGetHistory peer off)).tickHistory
        (by intro i; simpa [State.log, State.tickHistory, Nat.add_assoc, Nat.add_comm 1 i] using hh (i + 1))
        (by intro i; simpa [State.log, State.tickHistory, Nat.add_assoc, Nat.add_comm 1 i] using hc (i + 1))
      exact ⟨e1, evs, by simpa [State.log, State.tickHistory, State.tickChannels] using e2, by simpa [State.log, State.tickHistory, State.tickChannels] using e3⟩
    have hstop : ∀ (r : Res (List Message)),
        (r, (s.log (.MessagesGetHistory peer off)).tickHistory).1
          = (r, (s'.log (.MessagesGetHistory peer off)).tickHistory).1
        ∧ ∃ evs, (r, (s.log (.MessagesGetHistory peer off)).tickHistory).2.trace = s.trace ++ evs
          ∧ (r, (s'.log (.MessagesGetHistory peer off)).tickHistory).2.trace = s'.trace ++ evs :=
      fun r => ⟨rfl, [.MessagesGetHistory peer off], rfl, rfl⟩
    rw [fetchLoop, fetchLoop, h0, c0]
    cases hr : env'.MessagesGetHistory s'.nHistory with
    | error err =>
      simp only
      split
      · obtain ⟨e1, evs, e2, e3⟩ := hstep off acc
        exact ⟨e1, _, e2, e3⟩
      · exact hstop _
    | ok page =>
      cases page with
      | messagesChannelMessages ms =>
        simp only
        cases hl : ms.getLast? with
        | none => exact hstop _
        | some last =>
          obtain ⟨e1, evs, e2, e3⟩ := hstep last.GetID (acc ++ ms.filterMap MessageClass.asMessage)
          exact ⟨e1, _, e2, e3⟩
      | messagesMessages ms => exact hstop _
      | messagesMessagesSlice ms => exact hstop _
      | messagesMessagesNotModified c =>
        exact hstop _

/-- One iteration of the loop of the fetch. -/
theorem fetchLoop_succ (env : Env) (peer : InputPeerChannel) (fuel : Nat) (off : Int)
    (acc : List Message) (s : State) :
    fetchLoop env peer (fuel + 1) off acc s =
      match env.MessagesGetHistory s.nHistory with
      | .error err =>
        if (FloodWait (env.ctxDone s.nHistory) err).1 then
          fetchLoop env peer fuel off acc (s.log (.MessagesGetHistory peer off)).tickHistory
        else (.err err, (s.log (.MessagesGetHistory peer off)).tickHistory)
      | .ok (.messagesChannelMessages messages) =>
        match messages.getLast? with
        | none => (.ok acc, (s.log (.MessagesGetHistory peer off)).tickHistory)
        | some last =>
          fetchLoop env peer fuel last.GetID (acc ++ messages.filterMap MessageClass.asMessage)
            (s.log (.MessagesGetHistory peer off)).tickHistory
      | .ok _ => (.ok acc, (s.log (.MessagesGetHistory peer off)).tickHistory) := by
  rw [fetchLoop]

/-- The loop of the fetch in an environment with a flood wait at the `j`-th history request,
against the loop in the environment without that reply: one more request, the same result,
and the cursor of the `j`-th request used twice. -/
theorem fetchLoop_drop_flood (env : Env) (peer : InputPeerChannel) (j : Nat) (err : Error)
    (hflood : env.MessagesGetHistory j = .error err)
    (hwait : (FloodWait (env.ctxDone j) err).1 = true) :
    ∀ (fuel : Nat) (off : Int) (acc : List Message) (s s' : State),
      s.nHistory = s'.nHistory → s.nHistory ≤ j → j < s.nHistory + fuel →
      (fetchLoop env peer (fuel + 1) off acc s).1
          = (fetchLoop (env.dropHistoryReply j) peer fuel off acc s').1
        ∧ ∃ evs evs', (fetchLoop env peer (fuel + 1) off acc s).2.trace = s.trace ++ evs
          ∧ (fetchLoop (env.dropHistoryReply j) peer fuel off acc s').2.trace = s'.trace ++ evs'
          ∧ historyOffsets evs = (historyOffsets evs').take (j - s.nHistory + 1)
              ++ (historyOffsets evs').drop (j - s.nHistory) := by
  intro fuel
  induction fuel with
  | zero => intro off acc s s' _ h1 h2; omega
  | succ fuel ih =>
    intro off acc s s' hss hle hlt
    rcases Nat.eq_or_lt_of_le hle with heq | hlt'
    · -- the flood wait is the reply to this request
      obtain ⟨e1, evs, e2, e3⟩ := fetchLoop_shift env (env.dropHistoryReply j) peer (fuel + 1)
        off acc (s.log (.MessagesGetHistory peer off)).tickHistory s'
        (by
          intro i
          have : ¬ (s'.nHistory + i < j) := by omega
          simp [Env.dropHistoryReply, State.log, State.tickHistory, this, ← hss, heq,
            Nat.add_assoc, Nat.add_comm 1 i])
        (by
          intro i
          have : ¬ (s'.nHistory + i < j) := by omega
          simp [Env.dropHistoryReply, State.log, State.tickHistory, this, ← hss, heq,
            Nat.add_assoc, Nat.add_comm 1 i])
      obtain ⟨evs', e4, e5⟩ := fetchLoop_trace (env.dropHistoryReply j) peer (fuel + 1) off acc s'
      obtain ⟨rest, hrest⟩ := e5 (by omega)
      have hsame : evs = evs' := List.append_cancel_left (e3.symm.trans e4)
      rw [fetchLoop_succ env peer (fuel + 1) off acc s]
      simp only [heq, hflood, hwait, if_true]
      refine ⟨e1, .MessagesGetHistory peer off :: evs, evs, ?_, e3, ?_⟩
      · simpa [State.log, State.tickHistory] using e2
      · rw [hsame, hrest]
        simp [historyOffsets]
    · -- the request comes before the flood wait: both runs get the same reply
      obtain ⟨d, hd⟩ : ∃ d, j = s.nHistory + 1 + d := ⟨j - (s.nHistory + 1), by omega⟩
      have hj : j - s.nHistory = d + 1 := by omega
      have hreply : (env.dropHistoryReply j).MessagesGetHistory s'.nHistory
          = env.MessagesGetHistory s.nHistory := by
        simp [Env.dropHistoryReply, ← hss, hlt']
      have hctx : (env.dropHistoryReply j).ctxDone s'.nHistory = env.ctxDone s.nHistory := by
        simp [Env.dropHistoryReply, ← hss, hlt']
      have hstep : ∀ (o : Int) (a : List Message),
          (fetchLoop env peer (fuel + 1) o a (s.log (.MessagesGetHistory peer off)).tickHistory).1
            = (fetchLoop (env.dropHistoryReply j) peer fuel o a
                (s'.log (.MessagesGetHistory peer off)).tickHistory).1
          ∧ ∃ evs evs',
            (fetchLoop env peer (fuel + 1) o a
                (s.log (.MessagesGetHistory peer off)).tickHistory).2.trace = s.trace ++ evs
            ∧ (fetchLoop (env.dropHistoryReply j) peer fuel o a
                (s'.log (.MessagesGetHistory peer off)).tickHistory).2.trace = s'.trace ++ evs'
            ∧ historyOffsets evs = (historyOffsets evs').take (j - s.nHistory + 1)
                ++ (historyOffsets evs').drop (j - s.nHistory) := by
        intro o a
        obtain ⟨e1, evs, evs', e2, e3, e4⟩ := ih o a
          (s.log (.MessagesGetHistory peer off)).tickHistory
          (s'.log (.MessagesGetHistory peer off)).tickHistory
          (by simp [State.log, State.tickHistory, hss])
          (by simp [State.log, State.tickHistory]; omega)
          (by simp [State.log, State.tickHistory]; omega)
        have hd' : j - (s.nHistory + 1) = d := by omega
        simp only [State.log, State.tickHistory, hd'] at e4
        refine ⟨e1, .MessagesGetHistory peer off :: evs, .MessagesGetHistory peer off :: evs',
          ?_, ?_, ?_⟩
        · simpa [State.log, State.tickHistory] using e2
        · simpa [State.log, State.tickHistory] using e3
        · rw [hj]
          simp [historyOffsets, e4]
      have hstop : ∀ (r : Res (List Message)),
          (r, (s.log (.MessagesGetHistory peer off)).tickHistory).1
            = (r, (s'.log (.MessagesGetHistory peer off)).tickHistory).1
          ∧ ∃ evs evs',
            (r, (s.log (.MessagesGetHistory peer off)).tickHistory).2.trace = s.trace ++ evs
            ∧ (r, (s'.log (.MessagesGetHistory peer off)).tickHistory).2.trace = s'.trace ++ evs'
            ∧ historyOffsets evs = (historyOffsets evs').take (j - s.nHistory + 1)
                ++ (historyOffsets evs').drop (j - s.nHistory) := by
        intro r
        refine ⟨rfl, [.MessagesGetHistory peer off], [.MessagesGetHistory peer off], rfl, rfl, ?_⟩
        rw [hj]
        simp [historyOffsets]
      rw [fetchLoop_succ env peer (fuel + 1) off acc s,
        fetchLoop_succ (env.dropHistoryReply j) peer fuel off acc s', hreply, hctx]
      cases hr : env.MessagesGetHistory s.nHistory with
      | error e =>
        simp only
        split
        · exact hstep off acc
        · exact hstop _
      | ok page =>
        cases page with
        | messagesChannelMessages ms =>
          simp only
          cases hl : ms.getLast? with
          | none => exact hstop _
          | some last => exact hstep _ _
        | messagesMessages ms => exact hstop _
        | messagesMessagesSlice ms => exact hstop _
        | messagesMessagesNotModified c => exact hstop _

theorem getPeerChannel_dropHistoryReply (env : Env) (j : Nat) (s : State) (channelID : Int) :
    getPeerChannel (env.dropHistoryReply j) s channelID = getPeerChannel env s channelID := rfl

/-- What `getPeerChannel` does to the state. -/
theorem getPeerChannel_state (env : Env) (s : State) (channelID : Int) :
    (getPeerChannel env s channelID).2 = (s.log (.ChannelsGetChannels channelID)).tickChannels := by
  unfold getPeerChannel
  cases env.ChannelsGetChannels s.nChannels with
  | error err => rfl
  | ok channels =>
    simp only
    cases channels.GetChats with
    | nil => rfl
    | cons c cs => cases c <;> rfl

/-- C9: when the reply to the `j`-th history request is a flood wait and the context is not
done while waiting, `fetchChannelMessages` issues one more request and gives the result it
gives for the same replies without the flood wait; the requests carry the same cursors as in
that run, with the cursor of the `j`-th request used twice in a row. -/
theorem flood_wait_retried_once (env : Env) (chatID : Int) (fuel j : Nat) (err : Error)
    (seconds : Nat)
    (hflood : env.MessagesGetHistory j = .error err)
    (hwait : AsFloodWait err = some seconds)
    (hctx : env.ctxDone j = false)
    (hfuel : j < fuel) :
    (fetchChannelMessages env (fuel + 1) State.init chatID).1
        = (fetchChannelMessages (env.dropHistoryReply j) fuel State.init chatID).1
      ∧ historyOffsets (fetchChannelMessages env (fuel + 1) State.init chatID).2.trace
        = (historyOffsets
            (fetchChannelMessages (env.dropHistoryReply j) fuel State.init chatID).2.trace).take
              (j + 1)
          ++ (historyOffsets
            (fetchChannelMessages (env.dropHistoryReply j) fuel State.init chatID).2.trace).drop
              j := by
  have hw : (FloodWait (env.ctxDone j) err).1 = true := by simp [FloodWait, hwait, hctx]
  unfold fetchChannelMessages
  rw [getPeerChannel_dropHistoryReply]
  have hst := getPeerChannel_state env State.init chatID
  generalize getPeerChannel env State.init chatID = r at hst
  obtain ⟨r1, s1⟩ := r
  simp only at hst
  subst hst
  cases r1 with
  | err e => simp [State.log, State.tickChannels, State.init, historyOffsets]
  | panic reason => simp [State.log, State.tickChannels, State.init, historyOffsets]
  | diverge => simp [State.log, State.tickChannels, State.init, historyOffsets]
  | ok peer =>
    obtain ⟨e1, evs, evs', e2, e3, e4⟩ := fetchLoop_drop_flood env peer j err hflood hw fuel 0 []
      (State.init.log (.ChannelsGetChannels chatID)).tickChannels
      (State.init.log (.ChannelsGetChannels chatID)).tickChannels rfl
      (by simp [State.log, State.tickChannels, State.init])
      (by simpa [State.log, State.tickChannels, State.init] using hfuel)
    simp only
    generalize fetchLoop env peer (fuel + 1) 0 []
      (State.init.log (.ChannelsGetChannels chatID)).tickChannels = A at e1 e2
    generalize fetchLoop (env.dropHistoryReply j) peer fuel 0 []
      (State.init.log (.ChannelsGetChannels chatID)).tickChannels = B at e1 e3
    obtain ⟨a1, a2⟩ := A
    obtain ⟨b1, b2⟩ := B
    simp only at e1 e2 e3
    subst e1
    have h0 : (State.init.log (.ChannelsGetChannels chatID)).tickChannels.nHistory = 0 := rfl
    rw [h0] at e4
    have ha : historyOffsets a2.trace = historyOffsets evs := by
      rw [e2, historyOffsets_append]; rfl
    have hb : historyOffsets b2.trace = historyOffsets evs' := by
      rw [e3, historyOffsets_append]; rfl
    cases a1 <;> simp [ha, hb, e4]

/-- Witness of C9: the second history request is answered by a flood wait once; the fetch
returns all the messages, oldest first, and asks twice with the cursor 4. -/
theorem flood_wait_retried_once_witness :
    (fetchChannelMessages Env.floodOnce 4 State.init 1).1
        = .ok [textMsg 1 "a" 0, textMsg 3 "c" 0, textMsg 4 "d" 0, textMsg 5 "e" 0]
      ∧ historyOffsets (fetchChannelMessages Env.floodOnce 4 State.init 1).2.trace
        = [0, 4, 4, 1] := by
  have h := flood_wait_retried_once Env.floodOnce 1 3 1 (.rpc .floodWait 30) 30 rfl rfl rfl
    (by decide)
  exact ⟨h.1.trans (by rfl), h.2.trans (by rfl)⟩

/-! ## The dispatcher when every send succeeds -/

theorem dispatched_append (t u : List Event) :
    dispatched (t ++ u) = dispatched t ++ dispatched u := by
  induction t with
  | nil => rfl
  | cons e t ih => cases e <;> simp [dispatched, ih]

theorem Emits.refl (s : State) : Emits s s [] := ⟨[], by simp, rfl⟩

theorem Emits.trans {s s1 s2 : State} {a b : List DispatchItem}
    (h1 : Emits s s1 a) (h2 : Emits s1 s2 b) : Emits s s2 (a ++ b) := by
  obtain ⟨e1, t1, d1⟩ := h1
  obtain ⟨e2, t2, d2⟩ := h2
  exact ⟨e1 ++ e2, by rw [t2, t1, List.append_assoc], by rw [dispatched_append, d1, d2]⟩

theorem Sends.idle (s : State) : Sends s s [] := ⟨Emits.refl s, rfl, rfl⟩

theorem Sends.andThen {s s1 s2 : State} {a b : List DispatchItem}
    (h1 : Sends s s1 a) (h2 : Sends s1 s2 b) : Sends s s2 (a ++ b) :=
  ⟨h1.1.trans h2.1, h2.2.1.trans h1.2.1, h2.2.2.trans h1.2.2⟩

theorem Emits.issued {s s' : State} {items : List DispatchItem} (h : Emits s s' items)
    (r : Res Unit) : issued s (r, s') = items := by
  obtain ⟨evs, t, d⟩ := h
  simp [TgForwarder.issued, t, d]

theorem limiterWait_ok {env : Env} (h : AllSendsSucceed env) (s : State) :
    ∃ s', limiterWait env s = (none, s') ∧ Sends s s' [] := by
  refine ⟨(s.log (.limiterWait true)).tickWait, ?_, ⟨[.limiterWait true], rfl, rfl⟩, rfl, rfl⟩
  simp [limiterWait, h.wait]

theorem sendTextMessage_ok {env : Env} (h : AllSendsSucceed env) (s : State)
    (peer : InputPeerChannel) (text : String) (entities : List MessageEntity) :
    ∃ id s', sendTextMessage env s peer text entities = (.ok id, s')
      ∧ Sends s s' [.TextSend text entities] := by
  obtain ⟨r, hr⟩ := h.rand (s.log (.sendTextMessage peer text entities)).nRand
  obtain ⟨upd, id, hu, hid⟩ := h.text
    (s.log (.sendTextMessage peer text entities)).tickRand.nSendMessage
  refine ⟨id, (((s.log (.sendTextMessage peer text entities)).tickRand).log
    (.MessagesSendMessage ⟨peer, text, entities, true, r⟩)).tickSendMessage, ?_,
    ⟨[.sendTextMessage peer text entities,
      .MessagesSendMessage ⟨peer, text, entities, true, r⟩], ?_, rfl⟩, rfl, rfl⟩
  · simp only [sendTextMessage, hr, hu, hid]
  · simp [State.log, State.tickRand, State.tickSendMessage]

theorem sendMedia_ok {env : Env} (h : AllSendsSucceed env) (s : State)
    (peer : InputPeerChannel) (media : InputMediaClass) (caption : String)
    (entities : List MessageEntity) :
    ∃ id s', sendMedia env s peer media caption entities = (.ok id, s')
      ∧ Sends s s' [.MediaSend media caption entities] := by
  obtain ⟨r, hr⟩ := h.rand (s.log (.sendMedia peer media caption entities)).nRand
  obtain ⟨upd, id, hu, hid⟩ := h.media
    (s.log (.sendMedia peer media caption entities)).tickRand.nSendMedia
  refine ⟨id, (((s.log (.sendMedia peer media caption entities)).tickRand).log
    (.MessagesSendMedia ⟨peer, media, caption, entities, r⟩)).tickSendMedia, ?_,
    ⟨[.sendMedia peer media caption entities,
      .MessagesSendMedia ⟨peer, media, caption, entities, r⟩], ?_, rfl⟩, rfl, rfl⟩
  · simp only [sendMedia, hr, hu, hid]
  · simp [State.log, State.tickRand, State.tickSendMedia]

theorem captioned_succ (i : Nat) (l : List MultiMediaItem) :
    captioned (i + 1) l = l.map fun it => (it.Media, "", []) := by
  induction l generalizing i with
  | nil => rfl
  | cons it rest ih => simp [captioned, ih]

theorem captioned_zero (l : List MultiMediaItem) : captioned 0 l = batchEntries l := by
  cases l with
  | nil => rfl
  | cons it rest => simp [captioned, batchEntries, captioned_succ]

theorem buildInputMedias_ok {env : Env} (h : AllSendsSucceed env) :
    ∀ (medias : List MultiMediaItem) (i : Nat) (acc : List InputSingleMedia) (s : State),
      ∃ ims s', buildInputMedias env medias i acc s = (.ok ims, s')
        ∧ s'.trace = s.trace ∧ s'.albumBuf = s.albumBuf
        ∧ s'.currentGroupID = s.currentGroupID
        ∧ ims.map (fun im => (im.Media, im.Message, im.Entities))
          = acc.map (fun im => (im.Media, im.Message, im.Entities)) ++ captioned i medias := by
  intro medias
  induction medias with
  | nil => intro i acc s; exact ⟨acc, s, rfl, rfl, rfl, rfl, by simp [captioned]⟩
  | cons it rest ih =>
    intro i acc s
    obtain ⟨r, hr⟩ := h.rand s.nRand
    obtain ⟨ims, s', e1, e2, e3, e4, e5⟩ := ih (i + 1)
      (acc ++ [if i = 0 then ⟨it.Media, r, it.Caption, it.Entities⟩ else ⟨it.Media, r, "", []⟩])
      s.tickRand
    refine ⟨ims, s', ?_, e2, e3, e4, ?_⟩
    · simp only [buildInputMedias, hr]
      exact e1
    · rw [e5]
      by_cases hi : i = 0 <;> simp [captioned, hi]

theorem sendMultiMedia_ok {env : Env} (h : AllSendsSucceed env) (s : State)
    (peer : InputPeerChannel) (medias : List MultiMediaItem) :
    ∃ id s', sendMultiMedia env s peer medias = (.ok id, s')
      ∧ Sends s s' [.BatchSend (batchEntries medias)] := by
  obtain ⟨ims, s1, e1, e2, e3, e4, e5⟩ :=
    buildInputMedias_ok h medias 0 [] (s.log (.sendMultiMedia peer medias))
  obtain ⟨upd, id, hu, hid⟩ := h.multi s1.nSendMultiMedia
  refine ⟨id, (s1.log (.MessagesSendMultiMedia ⟨peer, ims⟩)).tickSendMultiMedia, ?_,
    ⟨[.sendMultiMedia peer medias, .MessagesSendMultiMedia ⟨peer, ims⟩], ?_, ?_⟩, ?_, ?_⟩
  · simp only [sendMultiMedia, e1, hu, hid]
  · simp [State.log, State.tickSendMultiMedia, e2]
  · simp [dispatched, e5, captioned_zero]
  · simpa [State.log, State.tickSendMultiMedia] using e3
  · simpa [State.log, State.tickSendMultiMedia] using e4

theorem Sends.printed (s : State) (line : String) : Sends s (s.log (.print line)) [] :=
  ⟨⟨[.print line], rfl, rfl⟩, rfl, rfl⟩

theorem flushLoop_ok {env : Env} (h : AllSendsSucceed env) (target : InputPeerChannel) :
    ∀ (buf : List Message) (items : List MultiMediaItem) (s : State),
      ∃ s', flushLoop env target buf items s = (.ok (items ++ buf.filterMap Message.toItem), s')
        ∧ Sends s s' (textSends buf) := by
  intro buf
  induction buf with
  | nil => intro items s; exact ⟨s, by simp [flushLoop], Sends.idle s⟩
  | cons m rest ih =>
    intro items s
    have hquiet : ∀ (its : List MultiMediaItem) (s1 : State), Sends s s1 [] →
        its = items ++ (Message.toItem m).toList → m.Media.isNone = false →
        ∃ s', flushLoop env target rest its s1
            = (.ok (items ++ (m :: rest).filterMap Message.toItem), s')
          ∧ Sends s s' (textSends (m :: rest)) := by
      intro its s1 hs hits hm
      obtain ⟨s', e1, e2⟩ := ih its s1
      refine ⟨s', ?_, ?_⟩
      · rw [e1, hits]
        cases ht : Message.toItem m <;> simp [List.filterMap_cons, ht]
      · have := hs.andThen e2
        simpa [textSends, List.filter_cons, hm] using this
    rw [flushLoop]
    cases hm : m.Media with
    | none =>
      simp only
      obtain ⟨s1, w1, w2⟩ := limiterWait_ok h (s.log (.print "СООБЩЕНИЕ БЕЗ МЕДИА"))
      obtain ⟨id, s2, t1, t2⟩ := sendTextMessage_ok h s1 target m.Message m.Entities
      obtain ⟨s', e1, e2⟩ := ih items s2
      refine ⟨s', ?_, ?_⟩
      · simp only [w1, t1, e1]
        simp [List.filterMap_cons, Message.toItem, Message.supportedMedia, hm]
      · have := (((Sends.printed s _).andThen w2).andThen t2).andThen e2
        simpa [textSends, List.filter_cons, hm] using this
    | some media =>
      cases media with
      | messageMediaPhoto photo =>
        cases photo with
        | none =>
          exact hquiet _ _ (Sends.idle s)
            (by simp [Message.toItem, Message.supportedMedia, hm]) (by simp [hm])
        | some pc =>
          cases pc with
          | photoEmpty id =>
            exact hquiet _ _ (Sends.idle s)
              (by simp [Message.toItem, Message.supportedMedia, hm]) (by simp [hm])
          | photo p =>
            exact hquiet _ _ (Sends.idle s)
              (by simp [Message.toItem, Message.supportedMedia, hm, PhotoClass.AsNotEmpty])
              (by simp [hm])
      | messageMediaDocument doc =>
        cases doc with
        | none =>
          exact hquiet _ _ (Sends.idle s)
            (by simp [Message.toItem, Message.supportedMedia, hm]) (by simp [hm])
        | some dc =>
          cases dc with
          | documentEmpty id =>
            exact hquiet _ _ (Sends.idle s)
              (by simp [Message.toItem, Message.supportedMedia, hm]) (by simp [hm])
          | document d =>
            exact hquiet _ _ (Sends.idle s)
              (by simp [Message.toItem, Message.supportedMedia, hm, DocumentClass.AsNotEmpty])
              (by simp [hm])
      | other name =>
        exact hquiet _ _ (Sends.printed s _)
          (by simp [Message.toItem, Message.supportedMedia, hm]) (by simp [hm])

theorem flushAlbum_ok {env : Env} (h : AllSendsSucceed env) (target : InputPeerChannel)
    (s : State) :
    ∃ s', flushAlbum env target s = (none, s') ∧ Emits s s' (flushSends s.albumBuf)
      ∧ s'.albumBuf = [] := by
  unfold flushAlbum
  by_cases hbuf : s.albumBuf.length = 0
  · have hnil : s.albumBuf = [] := List.length_eq_zero.mp hbuf
    refine ⟨s, by simp [hbuf], ?_, hnil⟩
    rw [hnil]
    exact Emits.refl s
  · obtain ⟨s1, e1, e2⟩ := flushLoop_ok h target s.albumBuf [] s
    simp only [hbuf, if_false, e1, List.nil_append]
    by_cases hitems : (s.albumBuf.filterMap Message.toItem).length = 0
    · have hnil : s.albumBuf.filterMap Message.toItem = [] := List.length_eq_zero.mp hitems
      refine ⟨s1.clearAlbum, by simp [hitems], ?_, rfl⟩
      obtain ⟨evs, t, d⟩ := e2.1
      exact ⟨evs, t, by simp [flushSends, batchSends, hnil, d]⟩
    · obtain ⟨s2, w1, w2⟩ := limiterWait_ok h s1.clearAlbum
      obtain ⟨id, s3, m1, m2⟩ :=
        sendMultiMedia_ok h s2 target (s.albumBuf.filterMap Message.toItem)
      refine ⟨s3, by simp [hitems, w1, m1], ?_, ?_⟩
      · have hstep : Emits s1 s3 [.BatchSend (batchEntries (s.albumBuf.filterMap Message.toItem))] := by
          obtain ⟨evs, t, d⟩ := (w2.andThen m2).1
          exact ⟨evs, t, by simpa using d⟩
        have hbatch : batchSends s.albumBuf
            = [.BatchSend (batchEntries (s.albumBuf.filterMap Message.toItem))] := by
          unfold batchSends
          cases hl : s.albumBuf.filterMap Message.toItem with
          | nil => simp [hl] at hitems
          | cons a l => rfl
        rw [flushSends, hbatch]
        exact e2.1.trans hstep
      · rw [m2.2.1, w2.2.1]
        rfl

/-- The loop body on a standalone message when every send succeeds: the pending album is
flushed, then the sends of the message follow; on a photo or document without its object
the body panics after the flush. -/
theorem loopBody_standalone_ok {env : Env} (h : AllSendsSucceed env)
    (target : InputPeerChannel) (s : State) (msg : Message) (hg : msg.GroupedID = 0) :
    ∃ s1, flushAlbum env target s = (none, s1) ∧ Emits s s1 (flushSends s.albumBuf)
      ∧ s1.albumBuf = []
      ∧ ((msg.mediaObjectAbsent = true ∧ ∃ reason, loopBody env target s msg = (.panic reason, s1))
        ∨ (msg.mediaObjectAbsent = false ∧ ∃ s', loopBody env target s msg = (.ok (), s')
            ∧ Sends s1 s' (standaloneSends msg))) := by
  obtain ⟨s1, f1, f2, f3⟩ := flushAlbum_ok h target s
  refine ⟨s1, f1, f2, f3, ?_⟩
  unfold loopBody
  simp only [hg, if_true, f1]
  cases hm : msg.Media with
  | none =>
    obtain ⟨s2, w1, w2⟩ := limiterWait_ok h s1
    obtain ⟨id, s3, t1, t2⟩ := sendTextMessage_ok h s2 target msg.Message msg.Entities
    refine Or.inr ⟨by simp [Message.mediaObjectAbsent, hm], s3, by simp [w1, t1], ?_⟩
    simpa [standaloneSends, hm] using w2.andThen t2
  | some media =>
    cases media with
    | messageMediaPhoto photo =>
      cases photo with
      | none => exact Or.inl ⟨by simp [Message.mediaObjectAbsent, hm], _, rfl⟩
      | some pc =>
        cases pc with
        | photoEmpty id =>
          refine Or.inr ⟨by simp [Message.mediaObjectAbsent, hm], s1,
            by simp [PhotoClass.AsNotEmpty], ?_⟩
          simpa [standaloneSends, hm, Message.supportedMedia] using Sends.idle s1
        | photo p =>
          obtain ⟨s2, w1, w2⟩ := limiterWait_ok h s1
          obtain ⟨id, s3, t1, t2⟩ := sendMedia_ok h s2 target
            (.inputMediaPhoto p.AsInput) msg.Message msg.Entities
          refine Or.inr ⟨by simp [Message.mediaObjectAbsent, hm], s3,
            by simp [PhotoClass.AsNotEmpty, w1, t1], ?_⟩
          simpa [standaloneSends, hm, Message.supportedMedia] using w2.andThen t2
    | messageMediaDocument doc =>
      cases doc with
      | none => exact Or.inl ⟨by simp [Message.mediaObjectAbsent, hm], _, rfl⟩
      | some dc =>
        cases dc with
        | documentEmpty id =>
          refine Or.inr ⟨by simp [Message.mediaObjectAbsent, hm], s1,
            by simp [DocumentClass.AsNotEmpty], ?_⟩
          simpa [standaloneSends, hm, Message.supportedMedia] using Sends.idle s1
        | document d =>
          obtain ⟨s2, w1, w2⟩ := limiterWait_ok h s1
          obtain ⟨id, s3, t1, t2⟩ := sendMedia_ok h s2 target
            (.inputMediaDocument d.AsInput) msg.Message msg.Entities
          refine Or.inr ⟨by simp [Message.mediaObjectAbsent, hm], s3,
            by simp [DocumentClass.AsNotEmpty, w1, t1], ?_⟩
          simpa [standaloneSends, hm, Message.supportedMedia] using w2.andThen t2
    | other name =>
      refine Or.inr ⟨by simp [Message.mediaObjectAbsent, hm], s1.log (.print _), rfl, ?_⟩
      simpa [standaloneSends, hm, Message.supportedMedia] using Sends.printed s1 _

/-- C3, amended: when every send succeeds, a message without batch identifier whose media is
not a photo or document without its object makes the dispatcher flush the pending album and
then issue, for the message, one text send with its body and entities when it has no media,
one single-media send with its media, its body as caption and its entities when it has
supported media, and no send when its media is of another type or is empty. -/
theorem standalone_flush_then_send (env : Env) (h : AllSendsSucceed env)
    (target : InputPeerChannel) (s : State) (msg : Message) (hg : msg.GroupedID = 0)
    (hpresent : msg.mediaObjectAbsent = false) :
    (flushAlbum env target s).1 = none
      ∧ (loopBody env target s msg).1 = .ok ()
      ∧ (loopBody env target s msg).2.albumBuf = []
      ∧ ∃ flushed sent,
          (flushAlbum env target s).2.trace = s.trace ++ flushed
          ∧ (loopBody env target s msg).2.trace = s.trace ++ flushed ++ sent
          ∧ dispatched flushed = flushSends s.albumBuf
          ∧ dispatched sent =
              match msg.Media, msg.supportedMedia with
              | none, _ => [.TextSend msg.Message msg.Entities]
              | some _, some media => [.MediaSend media msg.Message msg.Entities]
              | some _, none => [] := by
  obtain ⟨s1, f1, ⟨flushed, ft, fd⟩, f3, hcase⟩ := loopBody_standalone_ok h target s msg hg
  rcases hcase with ⟨habs, _⟩ | ⟨_, s', l1, ⟨sent, st, sd⟩, l2, _⟩
  · rw [hpresent] at habs
    cases habs
  · refine ⟨by rw [f1], by rw [l1], by rw [l1]; exact l2.trans f3, flushed, sent,
      by rw [f1]; exact ft, by rw [l1]; simp only; rw [st, ft], fd, ?_⟩
    rw [sd, standaloneSends]
    cases msg.Media <;> cases msg.supportedMedia <;> rfl

/-- Witness of C3: a standalone photo that arrives while an album is pending. -/
theorem standalone_flush_then_send_witness :
    dispatched (loopBody Env.quiet ⟨2, 77⟩
        ((State.init.startAlbum (photoMsg 1 "B" 5)).appendAlbum (textMsg 2 "T" 5))
        (photoMsg 3 "C" 0)).2.trace
      = [.TextSend "T" [], .BatchSend [(.inputMediaPhoto ⟨1, 7, []⟩, "B", [])],
          .MediaSend (.inputMediaPhoto ⟨3, 7, []⟩) "C" []] := by
  have hq : AllSendsSucceed Env.quiet :=
    ⟨fun _ => rfl, fun n => ⟨_, rfl⟩, fun n => ⟨_, _, rfl, rfl⟩, fun n => ⟨_, _, rfl, rfl⟩,
      fun n => ⟨_, _, rfl, rfl⟩⟩
  obtain ⟨_, _, _, flushed, sent, _, e2, e3, e4⟩ := standalone_flush_then_send Env.quiet hq
    ⟨2, 77⟩ ((State.init.startAlbum (photoMsg 1 "B" 5)).appendAlbum (textMsg 2 "T" 5))
    (photoMsg 3 "C" 0) rfl rfl
  rw [e2, dispatched_append, dispatched_append, e3, e4]
  rfl

/-! ## Maximal runs -/

theorem splitByLoop_acc {α : Type} (R : α → α → Bool) :
    ∀ (l : List α) (a : α) (g : List α) (gs : List (List α)),
      List.splitBy.loop R l a g gs = gs.reverse ++ List.splitBy.loop R l a g [] := by
  intro l
  induction l with
  | nil => intro a g gs; simp [List.splitBy.loop]
  | cons b l ih =>
    intro a g gs
    rw [List.splitBy.loop, List.splitBy.loop]
    cases R a b with
    | true => exact ih b (a :: g) gs
    | false =>
      simp only
      rw [ih b [] ((a :: g).reverse :: gs), ih b [] [(a :: g).reverse]]
      simp

/-- A run whose neighbours are all related is one run. -/
theorem splitByLoop_chain {α : Type} (R : α → α → Bool) :
    ∀ (l : List α) (a : α) (g : List α), List.Chain (fun x y => R x y = true) a l →
      List.splitBy.loop R l a g [] = [g.reverse ++ a :: l] := by
  intro l
  induction l with
  | nil => intro a g _; simp [List.splitBy.loop]
  | cons b l ih =>
    intro a g hc
    rw [List.chain_cons] at hc
    rw [List.splitBy.loop, hc.1]
    simp only
    rw [ih b (a :: g) hc.2]
    simp

theorem splitByLoop_append {α : Type} (R : α → α → Bool) (y : α) (ys : List α) :
    ∀ (l : List α) (a : α) (g : List α), (∀ z ∈ (a :: l).getLast?, R z y = false) →
      List.splitBy.loop R (l ++ y :: ys) a g []
        = List.splitBy.loop R l a g [] ++ List.splitBy.loop R ys y [] [] := by
  intro l
  induction l with
  | nil =>
    intro a g hb
    have : R a y = false := hb a (by simp)
    rw [List.nil_append, List.splitBy.loop, this]
    simp only
    rw [splitByLoop_acc]
    simp [List.splitBy.loop]
  | cons b l ih =>
    intro a g hb
    have hb' : ∀ z ∈ (b :: l).getLast?, R z y = false := by
      intro z hz
      exact hb z (by rw [List.getLast?_cons_cons]; exact hz)
    rw [List.cons_append, List.splitBy.loop, List.splitBy.loop]
    cases R a b with
    | true => exact ih b (a :: g) hb'
    | false =>
      simp only
      rw [splitByLoop_acc, ih b [] hb', splitByLoop_acc R l b [] [(a :: g).reverse]]
      simp

theorem splitBy_chain {α : Type} (R : α → α → Bool) (a : α) (l : List α)
    (hc : List.Chain (fun x y => R x y = true) a l) : (a :: l).splitBy R = [a :: l] := by
  rw [List.splitBy, splitByLoop_chain R l a [] hc]
  simp

/-- The runs of a sequence cut at a place where the neighbours are not related are the runs
of the two parts. -/
theorem splitBy_append {α : Type} (R : α → α → Bool) (xs ys : List α)
    (hb : ∀ x ∈ xs.getLast?, ∀ y ∈ ys.head?, R x y = false) :
    (xs ++ ys).splitBy R = xs.splitBy R ++ ys.splitBy R := by
  cases xs with
  | nil => simp
  | cons a l =>
    cases ys with
    | nil => simp
    | cons y ys =>
      rw [List.cons_append, List.splitBy, List.splitBy, List.splitBy,
        splitByLoop_append R y ys l a [] (fun z hz => hb z hz y (by simp))]

theorem chain_of_forall {α : Type} (R : α → α → Prop) (P : α → Prop)
    (hR : ∀ x y, P x → P y → R x y) :
    ∀ (l : List α) (a : α), (∀ x ∈ a :: l, P x) → List.Chain R a l := by
  intro l
  induction l with
  | nil => intro a _; exact List.Chain.nil
  | cons b l ih =>
    intro a h
    exact List.Chain.cons (hR a b (h a (by simp)) (h b (by simp)))
      (ih b (fun x hx => h x (List.mem_cons_of_mem _ hx)))

/-- The messages of an album buffer form one maximal run. -/
theorem albumRuns_album (g : Int) (hg : g ≠ 0) (a : Message) (l : List Message)
    (h : ∀ x ∈ a :: l, x.GroupedID = g) : albumRuns (a :: l) = [a :: l] := by
  unfold albumRuns
  apply splitBy_chain
  apply chain_of_forall _ (fun x => x.GroupedID = g) _ l a h
  intro x y hx hy
  simp [sameAlbum, hx, hy, hg]

theorem flushSends_nil : flushSends [] = [] := rfl

theorem closedForm_nil : closedForm [] = [] := rfl

theorem closedForm_album (g : Int) (hg : g ≠ 0) (buf : List Message)
    (h : ∀ x ∈ buf, x.GroupedID = g) : closedForm buf = flushSends buf := by
  cases buf with
  | nil => rfl
  | cons a l =>
    have ha : a.GroupedID ≠ 0 := by rw [h a (by simp)]; exact hg
    have hc : crashes (a :: l) = false := by
      simp only [crashes, List.any_eq_false]
      intro x hx
      simp [h x hx, hg]
    simp [closedForm, albumRuns_album g hg a l h, List.takeWhile_cons, hc, runSends, ha]

/-- The runs of a part of the sequence hold messages of the sequence. -/
theorem mem_of_mem_albumRuns {msgs run : List Message} {m : Message}
    (hrun : run ∈ albumRuns msgs) (hm : m ∈ run) : m ∈ msgs := by
  have : m ∈ (albumRuns msgs).flatten := List.mem_flatten.mpr ⟨run, hrun, hm⟩
  simpa [albumRuns] using this

/-- At a cut between two runs, when the loop does not panic in the first part, the sends are
those of the first part followed by those of the second. -/
theorem closedForm_append (xs ys : List Message)
    (hb : ∀ x ∈ xs.getLast?, ∀ y ∈ ys.head?, sameAlbum x y = false)
    (hsafe : ∀ m ∈ xs, m.GroupedID = 0 → m.mediaObjectAbsent = false) :
    closedForm (xs ++ ys) = closedForm xs ++ closedForm ys := by
  have hall : ∀ run ∈ albumRuns xs, (!crashes run) = true := by
    intro run hrun
    simp only [crashes, Bool.not_eq_true', List.any_eq_false]
    intro m hm
    have := hsafe m (mem_of_mem_albumRuns hrun hm)
    by_cases h0 : m.GroupedID = 0
    · simp [this h0]
    · simp [h0]
  unfold closedForm
  have hsplit : albumRuns (xs ++ ys) = albumRuns xs ++ albumRuns ys :=
    splitBy_append sameAlbum xs ys hb
  rw [hsplit, List.takeWhile_append_of_pos hall, List.flatMap_append]
  congr 2
  exact (List.takeWhile_eq_self_iff.mpr hall).symm

theorem closedForm_flush_append (g : Int) (buf : List Message) (m : Message)
    (ms : List Message) (hinv : ∀ x ∈ buf, x.GroupedID = g ∧ g ≠ 0)
    (hm : buf ≠ [] → m.GroupedID ≠ g) :
    closedForm (buf ++ m :: ms) = flushSends buf ++ closedForm (m :: ms) := by
  cases hbuf : buf with
  | nil => simp [flushSends_nil]
  | cons a l =>
    have hg : g ≠ 0 := (hinv a (by simp [hbuf])).2
    have hmg : m.GroupedID ≠ g := hm (by simp [hbuf])
    rw [← hbuf, closedForm_append, closedForm_album g hg buf (fun x hx => (hinv x hx).1)]
    · intro x hx y hy
      have hxm : x ∈ buf := List.mem_of_mem_getLast? hx
      simp only [List.head?_cons, Option.mem_def, Option.some.injEq] at hy
      subst hy
      simp only [sameAlbum, (hinv x hxm).1]
      simp [Ne.symm hmg]
    · intro x hx h0
      exact absurd ((hinv x hx).1.symm.trans h0) hg

theorem closedForm_standalone (m : Message) (ms : List Message) (h0 : m.GroupedID = 0) :
    closedForm (m :: ms)
      = if m.mediaObjectAbsent then [] else standaloneSends m ++ closedForm ms := by
  have hsplit : albumRuns ([m] ++ ms) = albumRuns [m] ++ albumRuns ms := by
    apply splitBy_append
    intro x hx y _
    simp only [List.getLast?_singleton, Option.mem_def, Option.some.injEq] at hx
    subst hx
    simp [sameAlbum, h0]
  have hone : albumRuns [m] = [[m]] := rfl
  rw [List.singleton_append] at hsplit
  unfold closedForm
  rw [hsplit, hone]
  cases habs : m.mediaObjectAbsent with
  | true => simp [List.takeWhile_cons, crashes, h0, habs]
  | false => simp [List.takeWhile_cons, crashes, h0, habs, runSends]

/-! ## The sends of the dispatcher -/

theorem dispatch_nil (env : Env) (target : InputPeerChannel) (s : State) :
    dispatch env target [] s =
      match flushAlbum env target s with
      | (some err, s) => (.err err, s)
      | (none, s) => (.ok (), s) := rfl

theorem dispatch_cons (env : Env) (target : InputPeerChannel) (m : Message)
    (ms : List Message) (s : State) :
    dispatch env target (m :: ms) s =
      match loopBody env target s m with
      | (.ok _, s1) => dispatch env target ms s1
      | r => r := by
  simp only [dispatch, dispatchLoop]
  generalize loopBody env target s m = r
  obtain ⟨r1, s1⟩ := r
  cases r1 <;> rfl

theorem Emits.startAlbum (s : State) (m : Message) : Emits s (s.startAlbum m) [] :=
  ⟨[], by simp [State.startAlbum], rfl⟩

theorem Emits.appendAlbum (s : State) (m : Message) : Emits s (s.appendAlbum m) [] :=
  ⟨[], by simp [State.appendAlbum], rfl⟩

/-- When every send succeeds, the sends of the dispatcher are those of the maximal runs of
the buffered messages followed by the messages to come, up to the first panic. -/
theorem dispatch_closedForm {env : Env} (h : AllSendsSucceed env) (target : InputPeerChannel) :
    ∀ (msgs : List Message) (s : State), AlbumInv s →
      ∃ r s', dispatch env target msgs s = (r, s')
        ∧ Emits s s' (closedForm (s.albumBuf ++ msgs)) := by
  intro msgs
  induction msgs with
  | nil =>
    intro s hinv
    obtain ⟨s1, f1, f2, _⟩ := flushAlbum_ok h target s
    refine ⟨.ok (), s1, by rw [dispatch_nil, f1], ?_⟩
    rw [List.append_nil]
    cases hbuf : s.albumBuf with
    | nil => rw [hbuf] at f2; exact f2
    | cons a l =>
      have hg : s.currentGroupID ≠ 0 := (hinv a (by simp [hbuf])).2
      rw [← hbuf, closedForm_album _ hg s.albumBuf (fun x hx => (hinv x hx).1)]
      exact f2
  | cons m ms ih =>
    intro s hinv
    rw [dispatch_cons]
    by_cases h0 : m.GroupedID = 0
    · -- a standalone message
      obtain ⟨s1, _, f2, f3, hcase⟩ := loopBody_standalone_ok h target s m h0
      have hcut : closedForm (s.albumBuf ++ m :: ms)
          = flushSends s.albumBuf ++ closedForm (m :: ms) :=
        closedForm_flush_append s.currentGroupID s.albumBuf m ms hinv
          (fun hne => by
            obtain ⟨a, l, hal⟩ := List.exists_cons_of_ne_nil hne
            have := (hinv a (by simp [hal])).2
            rw [h0]
            exact Ne.symm this)
      rw [hcut, closedForm_standalone m ms h0]
      rcases hcase with ⟨habs, reason, l1⟩ | ⟨habs, s2, l1, l2⟩
      · refine ⟨_, s1, by rw [l1], ?_⟩
        simpa [habs] using f2
      · obtain ⟨r, s3, d1, d2⟩ := ih s2 (by
          intro x hx
          rw [l2.2.1, f3] at hx
          cases hx)
        refine ⟨r, s3, by rw [l1]; exact d1, ?_⟩
        rw [l2.2.1, f3, List.nil_append] at d2
        simpa [habs] using f2.trans (l2.1.trans d2)
    · by_cases hc : s.currentGroupID = 0
      · -- the first message of an album
        have hbuf : s.albumBuf = [] := by
          cases hb : s.albumBuf with
          | nil => rfl
          | cons a l => exact absurd hc (hinv a (by simp [hb])).2
        obtain ⟨r, s3, d1, d2⟩ := ih (s.startAlbum m) (by
          intro x hx
          simp only [State.startAlbum, List.mem_singleton] at hx ⊢
          subst hx
          exact ⟨rfl, h0⟩)
        refine ⟨r, s3, by simp only [loopBody, h0, hc, if_false, if_true]; exact d1, ?_⟩
        rw [hbuf, List.nil_append]
        simpa [State.startAlbum] using (Emits.startAlbum s m).trans d2
      · by_cases hsame : m.GroupedID = s.currentGroupID
        · -- one more message of the current album
          obtain ⟨r, s3, d1, d2⟩ := ih (s.appendAlbum m) (by
            intro x hx
            simp only [State.appendAlbum, List.mem_append, List.mem_singleton] at hx ⊢
            rcases hx with hx | hx
            · exact hinv x hx
            · subst hx
              exact ⟨hsame, hc⟩)
          refine ⟨r, s3, by simp only [loopBody, h0, hc, hsame, if_false, if_true]; exact d1, ?_⟩
          simpa [State.appendAlbum, List.append_assoc] using (Emits.appendAlbum s m).trans d2
        · -- the first message of the next album
          obtain ⟨s1, f1, f2, f3⟩ := flushAlbum_ok h target s
          obtain ⟨r, s3, d1, d2⟩ := ih (s1.startAlbum m) (by
            intro x hx
            simp only [State.startAlbum, List.mem_singleton] at hx ⊢
            subst hx
            exact ⟨rfl, h0⟩)
          refine ⟨r, s3, by simp only [loopBody, h0, hc, hsame, if_false, f1]; exact d1, ?_⟩
          rw [closedForm_flush_append s.currentGroupID s.albumBuf m ms hinv (fun _ => hsame)]
          have := f2.trans ((Emits.startAlbum s1 m).trans d2)
          simpa [State.startAlbum] using this

theorem allSendsSucceed_quiet : AllSendsSucceed Env.quiet :=
  ⟨fun _ => rfl, fun _ => ⟨_, rfl⟩, fun _ => ⟨_, _, rfl, rfl⟩, fun _ => ⟨_, _, rfl, rfl⟩,
    fun _ => ⟨_, _, rfl, rfl⟩⟩

/-- The sends issued by the dispatcher from an idle state when every send succeeds. -/
theorem issued_dispatch {env : Env} (h : AllSendsSucceed env) (target : InputPeerChannel)
    (msgs : List Message) (s : State) (hs : s.albumBuf = []) :
    issued s (dispatch env target msgs s) = closedForm msgs := by
  obtain ⟨r, s', d1, d2⟩ := dispatch_closedForm h target msgs s (by
    intro m hm
    rw [hs] at hm
    cases hm)
  rw [d1, d2.issued, hs, List.nil_append]

/-- When every send succeeds, a maximal run `run` of consecutive messages that share the
batch identifier `g ≠ 0` and whose supported-media items are `first :: others`, reached
without a panic, gets exactly one batch send: the sends of the whole sequence are the sends
of the messages before the run, the text sends of the run, one batch send whose entries are
`first :: others` in order with caption and entities on the first entry only, and the sends
of the messages after the run. -/
theorem album_run_sent_as_one_batch (env : Env) (h : AllSendsSucceed env)
    (target : InputPeerChannel) (s : State) (hs : s.albumBuf = [])
    (pre run post : List Message) (g : Int) (hg : g ≠ 0)
    (hrun : ∀ m ∈ run, m.GroupedID = g)
    (hpre : ∀ m ∈ pre.getLast?, m.GroupedID ≠ g)
    (hpost : ∀ m ∈ post.head?, m.GroupedID ≠ g)
    (first : MultiMediaItem) (others : List MultiMediaItem)
    (hmedia : run.filterMap Message.toItem = first :: others)
    (hsafe : ∀ m ∈ pre, m.GroupedID = 0 → m.mediaObjectAbsent = false) :
    issued s (dispatch env target (pre ++ run ++ post) s)
      = issued s (dispatch env target pre s)
        ++ textSends run
        ++ [.BatchSend ((first.Media, first.Caption, first.Entities)
              :: others.map fun it => (it.Media, "", []))]
        ++ issued s (dispatch env target post s) := by
  obtain ⟨a, l, hal⟩ : ∃ a l, run = a :: l := by
    cases run with
    | nil => simp at hmedia
    | cons a l => exact ⟨a, l, rfl⟩
  have hlast : ∀ x ∈ (pre ++ run).getLast?, x.GroupedID = g := by
    intro x hx
    rw [hal, List.getLast?_append_cons] at hx
    apply hrun x
    rw [hal]
    exact List.mem_of_mem_getLast? hx
  have hcut1 : closedForm (pre ++ run ++ post) = closedForm (pre ++ run) ++ closedForm post := by
    apply closedForm_append
    · intro x hx y hy
      have hy' := hpost y hy
      simp only [sameAlbum, hlast x hx]
      simp [Ne.symm hy']
    · intro m hm h0
      rcases List.mem_append.mp hm with hm | hm
      · exact hsafe m hm h0
      · exact absurd ((hrun m hm).symm.trans h0) hg
  have hcut2 : closedForm (pre ++ run) = closedForm pre ++ closedForm run := by
    apply closedForm_append _ _ _ hsafe
    intro x hx y hy
    have hx' := hpre x hx
    have hy' : y.GroupedID = g := by
      apply hrun y
      rw [hal] at hy ⊢
      simp only [List.head?_cons, Option.mem_def, Option.some.injEq] at hy
      simp [hy]
    simp only [sameAlbum, hy']
    simp [hx']
  have hbatch : batchSends run = [.BatchSend ((first.Media, first.Caption, first.Entities)
      :: others.map fun it => (it.Media, "", []))] := by
    simp [batchSends, hmedia, batchEntries]
  rw [issued_dispatch h target _ s hs, issued_dispatch h target pre s hs,
    issued_dispatch h target post s hs, hcut1, hcut2, closedForm_album g hg run hrun,
    flushSends, hbatch]
  simp [List.append_assoc]

/-- An instance: a text, an album of two photos of which the first has a caption, and a
text. -/
theorem album_run_sent_as_one_batch_instance :
    issued State.init (dispatch Env.quiet ⟨2, 77⟩
        ([textMsg 1 "A" 0] ++ [photoMsg 2 "B" 5, photoMsg 3 "" 5] ++ [textMsg 4 "D" 0])
        State.init)
      = [.TextSend "A" [],
          .BatchSend [(.inputMediaPhoto ⟨2, 7, []⟩, "B", []), (.inputMediaPhoto ⟨3, 7, []⟩, "", [])],
          .TextSend "D" []] :=
  (album_run_sent_as_one_batch Env.quiet allSendsSucceed_quiet ⟨2, 77⟩ State.init rfl
    [textMsg 1 "A" 0] [photoMsg 2 "B" 5, photoMsg 3 "" 5] [textMsg 4 "D" 0] 5 (by decide)
    (by decide) (by decide) (by decide)
    ⟨.inputMediaPhoto ⟨2, 7, []⟩, "B", []⟩ [⟨.inputMediaPhoto ⟨3, 7, []⟩, "", []⟩] rfl
    (by decide)).trans (by rfl)

/-! ## The order of the sends -/

theorem carried_textSends (run : List Message) :
    (textSends run).flatMap DispatchItem.carried
      = (run.filter fun m => m.Media.isNone).filterMap Message.carried := by
  induction run with
  | nil => rfl
  | cons m rest ih =>
    cases hm : m.Media with
    | none =>
      simp only [textSends, List.filter_cons, hm, Option.isNone_none, if_true, List.map_cons,
        List.flatMap_cons, List.filterMap_cons, Message.carried, DispatchItem.carried] at ih ⊢
      rw [ih]
      rfl
    | some media =>
      simpa [textSends, List.filter_cons, hm] using ih

theorem carried_batchEntries (items : List MultiMediaItem) :
    (batchEntries items).map (fun e => Carried.media e.1)
      = items.map fun it => Carried.media it.Media := by
  cases items with
  | nil => rfl
  | cons it rest => simp [batchEntries]

theorem carried_media_filter (run : List Message) :
    (run.filter fun m => m.Media.isSome).filterMap Message.carried
      = (run.filterMap Message.toItem).map fun it => Carried.media it.Media := by
  induction run with
  | nil => rfl
  | cons m rest ih =>
    cases hm : m.Media with
    | none =>
      simpa [List.filter_cons, hm, List.filterMap_cons, Message.toItem,
        Message.supportedMedia] using ih
    | some media =>
      cases hs : m.supportedMedia with
      | none =>
        simpa [List.filter_cons, hm, List.filterMap_cons, Message.toItem, Message.carried,
          hs] using ih
      | some im =>
        simpa [List.filter_cons, hm, List.filterMap_cons, Message.toItem, Message.carried,
          hs] using ih

theorem carried_batchSends (run : List Message) :
    (batchSends run).flatMap DispatchItem.carried
      = (run.filter fun m => m.Media.isSome).filterMap Message.carried := by
  rw [carried_media_filter, batchSends]
  cases hl : run.filterMap Message.toItem with
  | nil => rfl
  | cons it rest =>
    simp only [List.flatMap_cons, List.flatMap_nil, List.append_nil, DispatchItem.carried]
    exact carried_batchEntries (it :: rest)

theorem carried_flushSends (run : List Message) :
    (flushSends run).flatMap DispatchItem.carried = (albumOrder run).filterMap Message.carried := by
  rw [flushSends, List.flatMap_append, carried_textSends, carried_batchSends, albumOrder,
    List.filterMap_append]

theorem carried_standaloneSends (m : Message) :
    (standaloneSends m).flatMap DispatchItem.carried = (albumOrder [m]).filterMap Message.carried := by
  cases hm : m.Media with
  | none => simp [standaloneSends, albumOrder, hm, Message.carried, DispatchItem.carried]
  | some media =>
    cases hs : m.supportedMedia with
    | none => simp [standaloneSends, albumOrder, hm, Message.carried, hs]
    | some im =>
      simp [standaloneSends, albumOrder, hm, Message.carried, hs, DispatchItem.carried]

/-- A maximal run whose first message is standalone is that message alone. -/
theorem standalone_run_singleton {msgs : List Message} {m : Message} {rest : List Message}
    (hrun : m :: rest ∈ albumRuns msgs) (h0 : m.GroupedID = 0) : rest = [] := by
  have hc := List.chain'_of_mem_splitBy hrun
  cases rest with
  | nil => rfl
  | cons b l =>
    have : sameAlbum m b = true := (List.chain'_cons.mp hc).1
    simp [sameAlbum, h0] at this

/-- The messages carried by the sends of a maximal run are the messages of the run that can
be carried, those without media first. -/
theorem carried_runSends {msgs run : List Message} (hrun : run ∈ albumRuns msgs) :
    (runSends run).flatMap DispatchItem.carried = (albumOrder run).filterMap Message.carried := by
  cases run with
  | nil => rfl
  | cons m rest =>
    by_cases h0 : m.GroupedID = 0
    · have := standalone_run_singleton hrun h0
      subst this
      simp only [runSends, h0, if_true, List.flatMap_cons, List.flatMap_nil, List.append_nil]
      exact carried_standaloneSends m
    · simp only [runSends, h0, if_false]
      exact carried_flushSends (m :: rest)

theorem sublist_flatMap {α β : Type} (f : α → List β) {l1 l2 : List α} (h : l1.Sublist l2) :
    (l1.flatMap f).Sublist (l2.flatMap f) := by
  induction h with
  | slnil => simp
  | cons a _ ih =>
    rw [List.flatMap_cons]
    exact ih.trans (List.sublist_append_right _ _)
  | cons₂ a _ ih =>
    rw [List.flatMap_cons, List.flatMap_cons]
    exact List.Sublist.append (List.Sublist.refl _) ih

/-- C2, amended: when every send succeeds, the source messages carried by the sends, in the
order of the sends and with a batch send giving its entries in entry order, are a
subsequence of the input sequence in which, inside every maximal run of consecutive messages
that share one non-zero batch identifier, the messages without media come first: a message
is sent before a message that precedes it in the input only when it has no media and the
two belong to the same album. -/
theorem dispatch_order_within_albums (env : Env) (h : AllSendsSucceed env)
    (target : InputPeerChannel) (s : State) (hs : s.albumBuf = []) (msgs : List Message) :
    ((issued s (dispatch env target msgs s)).flatMap DispatchItem.carried).Sublist
      ((reordered msgs).filterMap Message.carried) := by
  rw [issued_dispatch h target msgs s hs, closedForm, reordered, List.flatMap_assoc,
    List.filterMap_flatMap]
  have hcongr : (albumRuns msgs).flatMap (fun run => (albumOrder run).filterMap Message.carried)
      = (albumRuns msgs).flatMap fun run => (runSends run).flatMap DispatchItem.carried :=
    List.flatMap_congr fun run hrun => (carried_runSends hrun).symm
  rw [hcongr]
  exact sublist_flatMap _ (List.takeWhile_sublist _)

/-- Witness of C2: in the album made of a photo followed by a text, the text is carried
first, as in the reordered input. -/
theorem dispatch_order_within_albums_witness :
    ((issued State.init (dispatch Env.quiet ⟨2, 77⟩
        [photoMsg 1 "B" 5, textMsg 2 "T" 5] State.init)).flatMap DispatchItem.carried).Sublist
      [.text "T" [], .media (.inputMediaPhoto ⟨1, 7, []⟩)] :=
  dispatch_order_within_albums Env.quiet allSendsSucceed_quiet ⟨2, 77⟩ State.init rfl
    [photoMsg 1 "B" 5, textMsg 2 "T" 5]

/-! ## The rate limiter -/

theorem paced_quiet (q : List Event) (hq : ∀ e ∈ q, e.isQuiet = true) : paced false q = true := by
  induction q with
  | nil => rfl
  | cons e q ih =>
    have he := hq e (by simp)
    have := ih (fun x hx => hq x (List.mem_cons_of_mem _ hx))
    cases e <;> simp_all [paced, Event.isQuiet, Event.isSend, Event.isWait, Event.isFetch]

/-- A well-paced trace without a refused acquisition can be continued by any trace. -/
theorem paced_append (u : List Event) :
    ∀ (t : List Event) (p : Bool), paced p t = true → Event.limiterWait false ∉ t →
      paced p (t ++ u) = paced false u := by
  intro t
  induction t with
  | nil =>
    intro p hp _
    cases p with
    | true => simp [paced] at hp
    | false => rfl
  | cons e t ih =>
    intro p hp hr
    have hr' : Event.limiterWait false ∉ t := fun hx => hr (List.mem_cons_of_mem _ hx)
    cases p with
    | true =>
      simp only [paced, if_true, Bool.and_eq_true] at hp
      simp only [List.cons_append, paced, if_true, hp.1, Bool.true_and]
      exact ih false hp.2 hr'
    | false =>
      cases e with
      | limiterWait granted =>
        cases granted with
        | true =>
          simp only [paced] at hp
          simp only [List.cons_append, paced]
          exact ih true (by simpa using hp) hr'
        | false => exact absurd (List.mem_cons_self _ _) hr
      | _ =>
        simp only [paced, Bool.false_eq_true, if_false, Bool.and_eq_true] at hp
        simp only [List.cons_append, paced, Bool.false_eq_true, if_false, hp.1, Bool.true_and]
        exact ih false hp.2 hr'

theorem Seg.nil (f : Option Error) : Seg f [] := ⟨rfl, by simp, by simp⟩

theorem Seg.weaken {f : Option Error} {evs : List Event} (h : Seg none evs) : Seg f evs :=
  ⟨h.paced, fun hx => absurd (h.refused hx) (by simp), h.noFetch⟩

theorem Seg.append {f : Option Error} {a b : List Event} (ha : Seg none a) (hb : Seg f b) :
    Seg f (a ++ b) := by
  have hno : Event.limiterWait false ∉ a := fun hx => by
    obtain ⟨_, h⟩ := ha.refused hx
    cases h
  refine ⟨?_, ?_, ?_⟩
  · rw [paced_append b a false ha.paced hno]
    exact hb.paced
  · intro hx
    rcases List.mem_append.mp hx with hx | hx
    · exact absurd hx hno
    · exact hb.refused hx
  · intro e he
    rcases List.mem_append.mp he with he | he
    · exact ha.noFetch e he
    · exact hb.noFetch e he

theorem Seg.quiet {q : List Event} (hq : ∀ e ∈ q, e.isQuiet = true) : Seg none q := by
  refine ⟨paced_quiet q hq, ?_, ?_⟩
  · intro hx
    have := hq _ hx
    simp [Event.isQuiet, Event.isWait] at this
  · intro e he
    have := hq e he
    simp only [Event.isQuiet, Bool.and_eq_true, Bool.not_eq_true'] at this
    exact this.2

theorem Seg.print (line : String) : Seg none [.print line] :=
  Seg.quiet (by simp [Event.isQuiet, Event.isSend, Event.isWait, Event.isFetch])

theorem Seg.refusedWait (cause : Error) :
    Seg (some (.wrap "rate limit wait" cause)) [.limiterWait false] :=
  ⟨rfl, fun _ => ⟨cause, rfl⟩, by simp [Event.isFetch]⟩

/-- A granted acquisition, the send attempt it admits, and what the send method does. -/
theorem Seg.send {e : Event} {tail : List Event} (he : e.isSend = true)
    (hq : ∀ x ∈ tail, x.isQuiet = true) : Seg none (.limiterWait true :: e :: tail) := by
  have ht := Seg.quiet hq
  refine ⟨?_, ?_, ?_⟩
  · simp only [TgForwarder.paced, Bool.false_eq_true, if_false, if_true, he, Bool.true_and]
    exact ht.paced
  · intro hx
    simp only [List.mem_cons, Event.limiterWait.injEq, Bool.false_eq_true, false_or] at hx
    rcases hx with hx | hx
    · subst hx
      simp [Event.isSend] at he
    · exact ht.refused hx
  · intro x hx
    simp only [List.mem_cons] at hx
    rcases hx with hx | hx | hx
    · subst hx; rfl
    · subst hx
      cases x <;> simp_all [Event.isSend, Event.isFetch]
    · exact ht.noFetch x hx

theorem sendTextMessage_tail (env : Env) (s : State) (peer : InputPeerChannel) (text : String)
    (entities : List MessageEntity) :
    ∃ tail, (sendTextMessage env s peer text entities).2.trace
        = s.trace ++ .sendTextMessage peer text entities :: tail
      ∧ ∀ e ∈ tail, e.isQuiet = true := by
  have q1 : ∀ req, ∀ e ∈ [Event.MessagesSendMessage req], e.isQuiet = true := by
    simp [Event.isQuiet, Event.isSend, Event.isWait, Event.isFetch]
  have q2 : ∀ req, ∀ e ∈ [Event.MessagesSendMessage req, .print "Error"], e.isQuiet = true := by
    simp [Event.isQuiet, Event.isSend, Event.isWait, Event.isFetch]
  simp only [sendTextMessage]
  split
  · exact ⟨[], by simp [State.log, State.tickRand], by simp⟩
  · split
    · exact ⟨_, by simp [State.log, State.tickRand, State.tickSendMessage]; rfl, q2 _⟩
    · split
      · exact ⟨_, by simp [State.log, State.tickRand, State.tickSendMessage]; rfl, q1 _⟩
      · exact ⟨_, by simp [State.log, State.tickRand, State.tickSendMessage]; rfl, q1 _⟩
    · exact ⟨_, by simp [State.log, State.tickRand, State.tickSendMessage]; rfl, q1 _⟩

theorem sendMedia_tail (env : Env) (s : State) (peer : InputPeerChannel)
    (media : InputMediaClass) (caption : String) (entities : List MessageEntity) :
    ∃ tail, (sendMedia env s peer media caption entities).2.trace
        = s.trace ++ .sendMedia peer media caption entities :: tail
      ∧ ∀ e ∈ tail, e.isQuiet = true := by
  have q1 : ∀ req, ∀ e ∈ [Event.MessagesSendMedia req], e.isQuiet = true := by
    simp [Event.isQuiet, Event.isSend, Event.isWait, Event.isFetch]
  have q2 : ∀ req, ∀ e ∈ [Event.MessagesSendMedia req, .print "media"], e.isQuiet = true := by
    simp [Event.isQuiet, Event.isSend, Event.isWait, Event.isFetch]
  have q3 : ∀ req, ∀ e ∈ [Event.MessagesSendMedia req, .print "Error", .print "media"],
      e.isQuiet = true := by
    simp [Event.isQuiet, Event.isSend, Event.isWait, Event.isFetch]
  simp only [sendMedia]
  split
  · exact ⟨[], by simp [State.log, State.tickRand], by simp⟩
  · split
    · exact ⟨_, by simp [State.log, State.tickRand, State.tickSendMedia]; rfl, q3 _⟩
    · split
      · exact ⟨_, by simp [State.log, State.tickRand, State.tickSendMedia]; rfl, q1 _⟩
      · exact ⟨_, by simp [State.log, State.tickRand, State.tickSendMedia]; rfl, q1 _⟩
    · exact ⟨_, by simp [State.log, State.tickRand, State.tickSendMedia]; rfl, q2 _⟩

theorem buildInputMedias_trace (env : Env) :
    ∀ (medias : List MultiMediaItem) (i : Nat) (acc : List InputSingleMedia) (s : State),
      (buildInputMedias env medias i acc s).2.trace = s.trace := by
  intro medias
  induction medias with
  | nil => intro i acc s; rfl
  | cons it rest ih =>
    intro i acc s
    simp only [buildInputMedias]
    split
    · rfl
    · rw [ih]
      rfl

theorem sendMultiMedia_tail (env : Env) (s : State) (peer : InputPeerChannel)
    (medias : List MultiMediaItem) :
    ∃ tail, (sendMultiMedia env s peer medias).2.trace
        = s.trace ++ .sendMultiMedia peer medias :: tail
      ∧ ∀ e ∈ tail, e.isQuiet = true := by
  have q1 : ∀ req, ∀ e ∈ [Event.MessagesSendMultiMedia req], e.isQuiet = true := by
    simp [Event.isQuiet, Event.isSend, Event.isWait, Event.isFetch]
  have q2 : ∀ req, ∀ e ∈ [Event.MessagesSendMultiMedia req, .print "Error"],
      e.isQuiet = true := by
    simp [Event.isQuiet, Event.isSend, Event.isWait, Event.isFetch]
  have hb := buildInputMedias_trace env medias 0 [] (s.log (.sendMultiMedia peer medias))
  simp only [sendMultiMedia]
  generalize buildInputMedias env medias 0 [] (s.log (.sendMultiMedia peer medias)) = r at hb
  obtain ⟨r1, s1⟩ := r
  simp only at hb
  cases r1 with
  | error err => exact ⟨[], by simp [hb, State.log], by simp⟩
  | ok ims =>
    simp only
    split
    · exact ⟨_, by simp [State.log, State.tickSendMultiMedia, hb]; rfl, q2 _⟩
    · split
      · exact ⟨_, by simp [State.log, State.tickSendMultiMedia, hb]; rfl, q1 _⟩
      · exact ⟨_, by simp [State.log, State.tickSendMultiMedia, hb]; rfl, q1 _⟩
    · exact ⟨_, by simp [State.log, State.tickSendMultiMedia, hb]; rfl, q1 _⟩

/-- An acquisition followed, when it is granted, by the send `send`: the events are well
paced, and a refused acquisition makes the piece fail. -/
theorem wait_then_send_seg (env : Env) (s : State) (e : Event) (he : e.isSend = true)
    (send : State → State)
    (hsend : ∀ s1, ∃ tail, (send s1).trace = s1.trace ++ e :: tail
      ∧ ∀ x ∈ tail, x.isQuiet = true) :
    (∃ err, (limiterWait env s).1 = some err
        ∧ (limiterWait env s).2.trace = s.trace ++ [.limiterWait false])
      ∨ ((limiterWait env s).1 = none
        ∧ ∃ evs, (send (limiterWait env s).2).trace = s.trace ++ evs ∧ Seg none evs) := by
  simp only [limiterWait]
  cases hw : env.limiterWait s.nWait with
  | some err => exact Or.inl ⟨err, rfl, by simp [State.log, State.tickWait]⟩
  | none =>
    obtain ⟨tail, t1, t2⟩ := hsend (s.log (.limiterWait true)).tickWait
    refine Or.inr ⟨rfl, .limiterWait true :: e :: tail, ?_, Seg.send he t2⟩
    simpa [State.log, State.tickWait] using t1

theorem flushLoop_seg (env : Env) (target : InputPeerChannel) :
    ∀ (buf : List Message) (items : List MultiMediaItem) (s : State),
      ∃ evs, (flushLoop env target buf items s).2.trace = s.trace ++ evs
        ∧ Seg (failureOf (flushLoop env target buf items s).1) evs := by
  intro buf
  induction buf with
  | nil => intro items s; exact ⟨[], by simp [flushLoop], Seg.nil _⟩
  | cons m rest ih =>
    intro items s
    have hskip : ∀ its, ∃ evs, (flushLoop env target rest its s).2.trace = s.trace ++ evs
        ∧ Seg (failureOf (flushLoop env target rest its s).1) evs := fun its => ih its s
    rw [flushLoop]
    cases hm : m.Media with
    | none =>
      simp only
      rcases wait_then_send_seg env (s.log (.print "СООБЩЕНИЕ БЕЗ МЕДИА"))
        (.sendTextMessage target m.Message m.Entities) rfl
        (fun s1 => (sendTextMessage env s1 target m.Message m.Entities).2)
        (fun s1 => sendTextMessage_tail env s1 target m.Message m.Entities)
        with ⟨err, h1, h2⟩ | ⟨h1, evs, h2, h3⟩
      · generalize limiterWait env (s.log (.print "СООБЩЕНИЕ БЕЗ МЕДИА")) = w at h1 h2
        obtain ⟨w1, w2⟩ := w
        simp only at h1 h2
        subst h1
        refine ⟨[.print "СООБЩЕНИЕ БЕЗ МЕДИА", .limiterWait false], ?_, ?_⟩
        · simpa [State.log] using h2
        · exact Seg.append (Seg.print _) (Seg.refusedWait err)
      · generalize limiterWait env (s.log (.print "СООБЩЕНИЕ БЕЗ МЕДИА")) = w at h1 h2
        obtain ⟨w1, w2⟩ := w
        simp only at h1 h2
        subst h1
        simp only
        generalize sendTextMessage env w2 target m.Message m.Entities = r at h2
        obtain ⟨r1, s3⟩ := r
        simp only at h2
        cases r1 with
        | error err =>
          refine ⟨.print "СООБЩЕНИЕ БЕЗ МЕДИА" :: evs, ?_, ?_⟩
          · simpa [State.log] using h2
          · exact (Seg.append (Seg.print _) h3 : Seg none _).weaken
        | ok id =>
          obtain ⟨evs3, e1, e2⟩ := ih items s3
          refine ⟨.print "СООБЩЕНИЕ БЕЗ МЕДИА" :: evs ++ evs3, ?_, ?_⟩
          · simp only
            rw [e1, h2]
            simp [State.log]
          · exact Seg.append (Seg.append (Seg.print _) h3 : Seg none _) e2
    | some media =>
      cases media with
      | messageMediaPhoto photo =>
        cases photo with
        | none => exact hskip _
        | some pc =>
          simp only
          cases pc.AsNotEmpty with
          | none => exact hskip _
          | some p => exact hskip _
      | messageMediaDocument doc =>
        cases doc with
        | none => exact hskip _
        | some dc =>
          simp only
          cases dc.AsNotEmpty with
          | none => exact hskip _
          | some d => exact hskip _
      | other name =>
        obtain ⟨evs, e1, e2⟩ := ih items (s.log (.print "Unhandled media type:"))
        refine ⟨.print "Unhandled media type:" :: evs, ?_, ?_⟩
        · simp only
          rw [e1]
          simp [State.log]
        · exact Seg.append (Seg.print _) e2

/-- The two outcomes of an acquisition followed by a send. -/
theorem wait_send_cases {α : Type} (env : Env) (s : State) (e : Event) (he : e.isSend = true)
    (send : State → α × State)
    (hsend : ∀ s1, ∃ tail, (send s1).2.trace = s1.trace ++ e :: tail
      ∧ ∀ x ∈ tail, x.isQuiet = true) :
    ∃ w1 w2, limiterWait env s = (w1, w2)
      ∧ ((∃ err, w1 = some err ∧ w2.trace = s.trace ++ [.limiterWait false])
        ∨ (w1 = none ∧ ∃ r1 s3, send w2 = (r1, s3)
            ∧ ∃ evs, s3.trace = s.trace ++ evs ∧ Seg none evs)) := by
  rcases wait_then_send_seg env s e he (fun s1 => (send s1).2) hsend
    with ⟨err, h1, h2⟩ | ⟨h1, evs, h2, h3⟩
  · exact ⟨_, _, rfl, Or.inl ⟨err, h1, h2⟩⟩
  · exact ⟨_, _, rfl, Or.inr ⟨h1, _, _, rfl, evs, h2, h3⟩⟩

theorem flushAlbum_seg (env : Env) (target : InputPeerChannel) (s : State) :
    ∃ evs, (flushAlbum env target s).2.trace = s.trace ++ evs
      ∧ Seg (flushAlbum env target s).1 evs := by
  unfold flushAlbum
  by_cases hbuf : s.albumBuf.length = 0
  · exact ⟨[], by simp [hbuf], by simpa [hbuf] using Seg.nil none⟩
  · simp only [hbuf, if_false]
    obtain ⟨evs1, e1, e2⟩ := flushLoop_seg env target s.albumBuf [] s
    generalize flushLoop env target s.albumBuf [] s = r at e1 e2
    obtain ⟨r1, s1⟩ := r
    simp only at e1 e2
    cases r1 with
    | error err => exact ⟨evs1, e1, e2⟩
    | ok items =>
      simp only
      by_cases hitems : items.length = 0
      · simp only [hitems, if_true]
        exact ⟨evs1, e1, e2⟩
      · simp only [hitems, if_false]
        obtain ⟨w1, w2, hw, hcase⟩ := wait_send_cases env s1.clearAlbum
          (.sendMultiMedia target items) rfl
          (fun s2 => sendMultiMedia env s2 target items)
          (fun s2 => sendMultiMedia_tail env s2 target items)
        simp only [hw]
        rcases hcase with ⟨err, rfl, ht⟩ | ⟨rfl, r1, s3, hs, evs, ht, hseg⟩
        · simp only
          refine ⟨evs1 ++ [.limiterWait false], ?_, ?_⟩
          · rw [ht, ← List.append_assoc]
            congr 1
          · simpa using Seg.append e2 (Seg.refusedWait err)
        · simp only [hs]
          have hs1 : s3.trace = s.trace ++ (evs1 ++ evs) := by
            rw [ht, ← List.append_assoc]
            congr 1
          cases r1 with
          | ok id => exact ⟨evs1 ++ evs, hs1, Seg.append e2 hseg⟩
          | error err =>
            simp only
            split
            · refine ⟨evs1 ++ evs ++ [.print "true", .print "ChatForwardsRestricted error:"],
                ?_, ?_⟩
              · simp [State.log, hs1]
              · exact Seg.append (Seg.append e2 hseg)
                  (Seg.quiet (by simp [Event.isQuiet, Event.isSend, Event.isWait, Event.isFetch]))
            · exact ⟨evs1 ++ evs, hs1, Seg.append e2 hseg⟩

theorem loopBody_seg (env : Env) (target : InputPeerChannel) (s : State) (msg : Message) :
    ∃ evs, (loopBody env target s msg).2.trace = s.trace ++ evs
      ∧ Seg (loopBody env target s msg).1.failure evs := by
  unfold loopBody
  obtain ⟨evs1, e1, e2⟩ := flushAlbum_seg env target s
  generalize flushAlbum env target s = f at e1 e2
  obtain ⟨f1, s1⟩ := f
  simp only at e1 e2
  by_cases h0 : msg.GroupedID = 0
  · simp only [h0, if_true]
    cases f1 with
    | some err => exact ⟨evs1, e1, by simpa [Res.failure] using e2⟩
    | none =>
      simp only
      have e2 : Seg none evs1 := e2
      cases hm : msg.Media with
      | none =>
        simp only
        obtain ⟨w1, w2, hw, hcase⟩ := wait_send_cases env s1
          (.sendTextMessage target msg.Message msg.Entities) rfl
          (fun s2 => sendTextMessage env s2 target msg.Message msg.Entities)
          (fun s2 => sendTextMessage_tail env s2 target msg.Message msg.Entities)
        simp only [hw]
        rcases hcase with ⟨err, rfl, ht⟩ | ⟨rfl, r1, s3, hs, evs, ht, hseg⟩
        · simp only
          refine ⟨evs1 ++ [.limiterWait false], ?_, ?_⟩
          · rw [ht, e1, List.append_assoc]
          · simpa [Res.failure] using Seg.append e2 (Seg.refusedWait err)
        · simp only [hs]
          have hs1 : s3.trace = s.trace ++ (evs1 ++ evs) := by
            rw [ht, e1, List.append_assoc]
          cases r1 with
          | ok id => exact ⟨evs1 ++ evs, hs1, by simpa [Res.failure] using Seg.append e2 hseg⟩
          | error err =>
            exact ⟨evs1 ++ evs, hs1, by simpa [Res.failure] using (Seg.append e2 hseg).weaken⟩
      | some media =>
        cases media with
        | messageMediaPhoto photo =>
          cases photo with
          | none => exact ⟨evs1, e1, by simpa [Res.failure] using e2⟩
          | some pc =>
            simp only
            cases pc.AsNotEmpty with
            | none => exact ⟨evs1, e1, by simpa [Res.failure] using e2⟩
            | some p =>
              simp only
              obtain ⟨w1, w2, hw, hcase⟩ := wait_send_cases env s1
                (.sendMedia target (.inputMediaPhoto p.AsInput) msg.Message msg.Entities) rfl
                (fun s2 => sendMedia env s2 target (.inputMediaPhoto p.AsInput) msg.Message msg.Entities)
                (fun s2 => sendMedia_tail env s2 target (.inputMediaPhoto p.AsInput) msg.Message msg.Entities)
              simp only [hw]
              rcases hcase with ⟨err, rfl, ht⟩ | ⟨rfl, r1, s3, hs, evs, ht, hseg⟩
              · simp only
                refine ⟨evs1 ++ [.limiterWait false], ?_, ?_⟩
                · rw [ht, e1, List.append_assoc]
                · simpa [Res.failure] using Seg.append e2 (Seg.refusedWait err)
              · simp only [hs]
                have hs1 : s3.trace = s.trace ++ (evs1 ++ evs) := by
                  rw [ht, e1, List.append_assoc]
                cases r1 with
                | ok id => exact ⟨evs1 ++ evs, hs1, by simpa [Res.failure] using Seg.append e2 hseg⟩
                | error err =>
                  exact ⟨evs1 ++ evs, hs1, by simpa [Res.failure] using (Seg.append e2 hseg).weaken⟩
        | messageMediaDocument doc =>
          cases doc with
          | none => exact ⟨evs1, e1, by simpa [Res.failure] using e2⟩
          | some dc =>
            simp only
            cases dc.AsNotEmpty with
            | none => exact ⟨evs1, e1, by simpa [Res.failure] using e2⟩
            | some d =>
              simp only
              obtain ⟨w1, w2, hw, hcase⟩ := wait_send_cases env s1
                (.sendMedia target (.inputMediaDocument d.AsInput) msg.Message msg.Entities) rfl
                (fun s2 => sendMedia env s2 target (.inputMediaDocument d.AsInput) msg.Message msg.Entities)
                (fun s2 => sendMedia_tail env s2 target (.inputMediaDocument d.AsInput) msg.Message msg.Entities)
              simp only [hw]
              rcases hcase with ⟨err, rfl, ht⟩ | ⟨rfl, r1, s3, hs, evs, ht, hseg⟩
              · simp only
                refine ⟨evs1 ++ [.limiterWait false], ?_, ?_⟩
                · rw [ht, e1, List.append_assoc]
                · simpa [Res.failure] using Seg.append e2 (Seg.refusedWait err)
              · simp only [hs]
                have hs1 : s3.trace = s.trace ++ (evs1 ++ evs) := by
                  rw [ht, e1, List.append_assoc]
                cases r1 with
                | ok id => exact ⟨evs1 ++ evs, hs1, by simpa [Res.failure] using Seg.append e2 hseg⟩
                | error err =>
                  exact ⟨evs1 ++ evs, hs1, by simpa [Res.failure] using (Seg.append e2 hseg).weaken⟩
        | other name =>
          refine ⟨evs1 ++ [.print "Unhandled media type:"], ?_, ?_⟩
          · simp [State.log, e1]
          · simpa [Res.failure] using Seg.append e2 (Seg.print _)
  · simp only [h0, if_false]
    by_cases hc : s.currentGroupID = 0
    · simp only [hc, if_true]
      exact ⟨[], by simp [State.startAlbum], Seg.nil _⟩
    · simp only [hc, if_false]
      by_cases hsame : msg.GroupedID = s.currentGroupID
      · simp only [hsame, if_true]
        exact ⟨[], by simp [State.appendAlbum], Seg.nil _⟩
      · simp only [hsame, if_false]
        cases f1 with
        | some err => exact ⟨evs1, e1, by simpa [Res.failure] using e2⟩
        | none =>
          exact ⟨evs1, by simpa [State.startAlbum] using e1, by simpa [Res.failure] using e2⟩

theorem dispatch_seg (env : Env) (target : InputPeerChannel) :
    ∀ (msgs : List Message) (s : State),
      ∃ evs, (dispatch env target msgs s).2.trace = s.trace ++ evs
        ∧ Seg (dispatch env target msgs s).1.failure evs := by
  intro msgs
  induction msgs with
  | nil =>
    intro s
    rw [dispatch_nil]
    obtain ⟨evs1, e1, e2⟩ := flushAlbum_seg env target s
    generalize flushAlbum env target s = f at e1 e2
    obtain ⟨f1, s1⟩ := f
    cases f1 with
    | some err => exact ⟨evs1, e1, by simpa [Res.failure] using e2⟩
    | none => exact ⟨evs1, e1, by simpa [Res.failure] using e2⟩
  | cons m ms ih =>
    intro s
    rw [dispatch_cons]
    obtain ⟨evs1, e1, e2⟩ := loopBody_seg env target s m
    generalize loopBody env target s m = r at e1 e2
    obtain ⟨r1, s1⟩ := r
    simp only at e1 e2
    cases r1 with
    | ok u =>
      obtain ⟨evs2, d1, d2⟩ := ih s1
      refine ⟨evs1 ++ evs2, ?_, ?_⟩
      · simp only
        rw [d1, e1, List.append_assoc]
      · exact Seg.append (by simpa [Res.failure] using e2) d2
    | err e => exact ⟨evs1, e1, e2⟩
    | panic reason => exact ⟨evs1, e1, e2⟩
    | diverge => exact ⟨evs1, e1, e2⟩

theorem paced_fetches (t : List Event) (ht : ∀ e ∈ t, e.isFetch = true) : paced false t = true := by
  induction t with
  | nil => rfl
  | cons e t ih =>
    have he := ht e (by simp)
    have := ih (fun x hx => ht x (List.mem_cons_of_mem _ hx))
    cases e <;> simp_all [paced, Event.isSend, Event.isFetch]

theorem paced_send_after_wait :
    ∀ (pre : List Event) (p : Bool) (e : Event) (post : List Event),
      paced p (pre ++ e :: post) = true → e.isSend = true →
      (pre = [] ∧ p = true) ∨ ∃ pre', pre = pre' ++ [.limiterWait true] := by
  intro pre
  induction pre with
  | nil =>
    intro p e post hp he
    cases p with
    | true => exact Or.inl ⟨rfl, rfl⟩
    | false => cases e <;> simp_all [paced, Event.isSend]
  | cons x pre ih =>
    intro p e post hp he
    right
    cases p with
    | true =>
      simp only [List.cons_append, paced, if_true, Bool.and_eq_true] at hp
      rcases ih false e post hp.2 he with ⟨_, h⟩ | ⟨pre', h⟩
      · cases h
      · exact ⟨x :: pre', by rw [h]; rfl⟩
    | false =>
      cases x with
      | limiterWait granted =>
        cases granted with
        | true =>
          simp only [List.cons_append, paced] at hp
          rcases ih true e post (by simpa using hp) he with ⟨h, _⟩ | ⟨pre', h⟩
          · exact ⟨[], by rw [h]; rfl⟩
          · exact ⟨.limiterWait true :: pre', by rw [h]; rfl⟩
        | false => simp [paced] at hp
      | _ =>
        simp only [List.cons_append, paced, Bool.false_eq_true, if_false,
          Bool.and_eq_true] at hp
        rcases ih false e post hp.2 he with ⟨_, h⟩ | ⟨pre', h⟩
        · cases h
        · exact ⟨_ :: pre', by rw [h]; rfl⟩

theorem paced_send_follows_wait :
    ∀ (pre : List Event) (p : Bool) (post : List Event),
      paced p (pre ++ .limiterWait true :: post) = true →
      ∃ e post', post = e :: post' ∧ e.isSend = true := by
  intro pre
  induction pre with
  | nil =>
    intro p post hp
    cases p with
    | true => simp [paced, Event.isSend] at hp
    | false =>
      cases post with
      | nil => simp [paced] at hp
      | cons e post' =>
        simp only [List.nil_append, paced, Bool.false_eq_true, if_false, if_true,
          Bool.and_eq_true] at hp
        exact ⟨e, post', rfl, hp.1⟩
  | cons x pre ih =>
    intro p post hp
    cases p with
    | true =>
      simp only [List.cons_append, paced, if_true, Bool.and_eq_true] at hp
      exact ih false post hp.2
    | false =>
      cases x with
      | limiterWait granted =>
        cases granted with
        | true =>
          simp only [List.cons_append, paced] at hp
          exact ih true post (by simpa using hp)
        | false => simp [paced] at hp
      | _ =>
        simp only [List.cons_append, paced, Bool.false_eq_true, if_false,
          Bool.and_eq_true] at hp
        exact ih false post hp.2

theorem paced_refused_last :
    ∀ (pre : List Event) (p : Bool) (post : List Event),
      paced p (pre ++ .limiterWait false :: post) = true → post = [] := by
  intro pre
  induction pre with
  | nil =>
    intro p post hp
    cases p with
    | true => simp [paced, Event.isSend] at hp
    | false => simpa [paced] using hp
  | cons x pre ih =>
    intro p post hp
    cases p with
    | true =>
      simp only [List.cons_append, paced, if_true, Bool.and_eq_true] at hp
      exact ih false post hp.2
    | false =>
      cases x with
      | limiterWait granted =>
        cases granted with
        | true =>
          simp only [List.cons_append, paced] at hp
          exact ih true post (by simpa using hp)
        | false => simp [paced] at hp
      | _ =>
        simp only [List.cons_append, paced, Bool.false_eq_true, if_false,
          Bool.and_eq_true] at hp
        exact ih false post hp.2

theorem paced_count :
    ∀ (t : List Event) (p : Bool), paced p t = true →
      t.count (.limiterWait true) + (if p then 1 else 0) = t.countP Event.isSend := by
  intro t
  induction t with
  | nil =>
    intro p hp
    cases p with
    | true => simp [paced] at hp
    | false => rfl
  | cons x t ih =>
    intro p hp
    cases p with
    | true =>
      simp only [paced, if_true, Bool.and_eq_true] at hp
      have := ih false hp.2
      have hx : x ≠ .limiterWait true := by
        intro h
        rw [h] at hp
        simp [Event.isSend] at hp
      simp only [Bool.false_eq_true, if_false, Nat.add_zero] at this
      rw [List.count_cons, List.countP_cons, this]
      simp [hp.1, hx]
    | false =>
      cases x with
      | limiterWait granted =>
        cases granted with
        | true =>
          simp only [paced] at hp
          have := ih true (by simpa using hp)
          simp only [if_true] at this
          rw [List.count_cons, List.countP_cons, ← this]
          simp [Event.isSend]
        | false =>
          simp only [paced, Bool.false_eq_true, if_false, List.isEmpty_iff] at hp
          subst hp
          simp [Event.isSend]
      | _ =>
        simp only [paced, Bool.false_eq_true, if_false, Bool.and_eq_true] at hp
        have := ih false hp.2
        simp only [Bool.false_eq_true, if_false, Nat.add_zero] at this ⊢
        rw [List.count_cons, List.countP_cons, this]
        simp_all [Event.isSend]

theorem fetchLoop_fetches (env : Env) (peer : InputPeerChannel) :
    ∀ (fuel : Nat) (off : Int) (acc : List Message) (s : State),
      ∃ evs, (fetchLoop env peer fuel off acc s).2.trace = s.trace ++ evs
        ∧ ∀ e ∈ evs, e.isFetch = true := by
  intro fuel
  induction fuel with
  | zero => intro off acc s; exact ⟨[], by simp [fetchLoop], by simp⟩
  | succ fuel ih =>
    intro off acc s
    have hstop : ∀ (r : Res (List Message)),
        ∃ evs, (r, (s.log (.MessagesGetHistory peer off)).tickHistory).2.trace = s.trace ++ evs
          ∧ ∀ e ∈ evs, e.isFetch = true :=
      fun r => ⟨[.MessagesGetHistory peer off], rfl, by simp [Event.isFetch]⟩
    have hstep : ∀ (o : Int) (a : List Message),
        ∃ evs, (fetchLoop env peer fuel o a
            (s.log (.MessagesGetHistory peer off)).tickHistory).2.trace = s.trace ++ evs
          ∧ ∀ e ∈ evs, e.isFetch = true := by
      intro o a
      obtain ⟨evs, h1, h2⟩ := ih o a (s.log (.MessagesGetHistory peer off)).tickHistory
      refine ⟨.MessagesGetHistory peer off :: evs, ?_, ?_⟩
      · simpa [State.log, State.tickHistory] using h1
      · intro e he
        rcases List.mem_cons.mp he with he | he
        · subst he; rfl
        · exact h2 e he
    rw [fetchLoop_succ]
    cases env.MessagesGetHistory s.nHistory with
    | error err =>
      simp only
      split
      · exact hstep off acc
      · exact hstop _
    | ok page =>
      cases page with
      | messagesChannelMessages ms =>
        simp only
        cases ms.getLast? with
        | none => exact hstop _
        | some last => exact hstep _ _
      | messagesMessages ms => exact hstop _
      | messagesMessagesSlice ms => exact hstop _
      | messagesMessagesNotModified c => exact hstop _

theorem fetchChannelMessages_fetches (env : Env) (fuel : Nat) (s : State) (chatID : Int) :
    ∃ evs, (fetchChannelMessages env fuel s chatID).2.trace = s.trace ++ evs
      ∧ ∀ e ∈ evs, e.isFetch = true := by
  unfold fetchChannelMessages
  have hst := getPeerChannel_state env s chatID
  generalize getPeerChannel env s chatID = r at hst
  obtain ⟨r1, s1⟩ := r
  simp only at hst
  subst hst
  have hone : ∀ e ∈ [Event.ChannelsGetChannels chatID], e.isFetch = true := by
    simp [Event.isFetch]
  cases r1 with
  | err e => exact ⟨_, rfl, hone⟩
  | panic reason => exact ⟨_, rfl, hone⟩
  | diverge => exact ⟨_, rfl, hone⟩
  | ok peer =>
    simp only
    obtain ⟨evs, h1, h2⟩ := fetchLoop_fetches env peer fuel 0 []
      (s.log (.ChannelsGetChannels chatID)).tickChannels
    generalize fetchLoop env peer fuel 0 []
      (s.log (.ChannelsGetChannels chatID)).tickChannels = l at h1
    obtain ⟨l1, s2⟩ := l
    have hall : ∀ e ∈ Event.ChannelsGetChannels chatID :: evs, e.isFetch = true := by
      intro e he
      rcases List.mem_cons.mp he with he | he
      · subst he; rfl
      · exact h2 e he
    have htrace : s2.trace = s.trace ++ Event.ChannelsGetChannels chatID :: evs := by
      simpa [State.log, State.tickChannels] using h1
    cases l1 with
    | ok result => exact ⟨_, htrace, hall⟩
    | err e => exact ⟨_, htrace, hall⟩
    | panic reason => exact ⟨_, htrace, hall⟩
    | diverge => exact ⟨_, htrace, hall⟩

/-- The trace of the callback: fetch and resolve calls, then the events of the dispatcher. -/
theorem runCallback_trace (env : Env) (fuel : Nat) (srcChatID targetChatID : Int) :
    ∃ F D, (runCallback env fuel srcChatID targetChatID).2.trace = F ++ D
      ∧ (∀ e ∈ F, e.isFetch = true)
      ∧ Seg (runCallback env fuel srcChatID targetChatID).1.failure D := by
  unfold runCallback
  cases env.auth with
  | some err => exact ⟨[], [], rfl, by simp, Seg.nil _⟩
  | none =>
    simp only
    obtain ⟨F, f1, f2⟩ := fetchChannelMessages_fetches env fuel State.init srcChatID
    generalize fetchChannelMessages env fuel State.init srcChatID = r at f1
    obtain ⟨r1, s1⟩ := r
    have hs1 : s1.trace = F := by simpa [State.init] using f1
    clear f1
    cases r1 with
    | err e => exact ⟨F, [], by simp [hs1], f2, Seg.nil _⟩
    | panic reason => exact ⟨F, [], by simp [hs1], f2, Seg.nil _⟩
    | diverge => exact ⟨F, [], by simp [hs1], f2, Seg.nil _⟩
    | ok messages =>
      simp only
      have hst := getPeerChannel_state env s1 targetChatID
      generalize getPeerChannel env s1 targetChatID = g at hst
      obtain ⟨g1, s2⟩ := g
      simp only at hst
      subst hst
      have hF : ∀ e ∈ F ++ [Event.ChannelsGetChannels targetChatID], e.isFetch = true := by
        intro e he
        rcases List.mem_append.mp he with he | he
        · exact f2 e he
        · simp only [List.mem_singleton] at he
          subst he; rfl
      have htrace : (s1.log (.ChannelsGetChannels targetChatID)).tickChannels.trace
          = F ++ [Event.ChannelsGetChannels targetChatID] := by
        simp [State.log, State.tickChannels, hs1]
      cases g1 with
      | err e => exact ⟨_, [], by simp [htrace], hF, Seg.nil _⟩
      | panic reason => exact ⟨_, [], by simp [htrace], hF, Seg.nil _⟩
      | diverge => exact ⟨_, [], by simp [htrace], hF, Seg.nil _⟩
      | ok targetChannel =>
        simp only
        obtain ⟨D, d1, d2⟩ := dispatch_seg env targetChannel messages
          (s1.log (.ChannelsGetChannels targetChatID)).tickChannels
        exact ⟨_, D, by rw [d1, htrace], hF, d2⟩

/-- The two `Run` wrappers leave the state of the callback as it is. -/
theorem clientRun_state (r : Res Unit × State) : (waiterRun (clientRun r)).2 = r.2 := by
  obtain ⟨r1, s⟩ := r
  cases r1 with
  | err e =>
    simp only [waiterRun, clientRun]
    split <;> rfl
  | ok u => rfl
  | panic reason => rfl
  | diverge => rfl

/-- The trace of a run is the trace of its callback, and it is empty when the session
directory cannot be made. -/
theorem ProcessChannels_trace (env : Env) (fuel : Nat) (srcChatID targetChatID : Int) :
    (ProcessChannels env fuel srcChatID targetChatID).2.trace = []
      ∨ (env.mkdirAll = none
        ∧ (ProcessChannels env fuel srcChatID targetChatID).2.trace
          = (runCallback env fuel srcChatID targetChatID).2.trace) := by
  unfold ProcessChannels
  cases env.mkdirAll with
  | some err => exact Or.inl rfl
  | none => exact Or.inr ⟨rfl, by simp only [clientRun_state]⟩

/-- What a run returns when its callback fails with the wrapped error of the limiter. -/
theorem ProcessChannels_refused (env : Env) (fuel : Nat) (srcChatID targetChatID : Int)
    (cause : Error) (hdir : env.mkdirAll = none)
    (hcb : (runCallback env fuel srcChatID targetChatID).1
      = .err (.wrap "rate limit wait" cause)) :
    (ProcessChannels env fuel srcChatID targetChatID).1
      = if cause.isCanceled then .ok ()
        else .err (.wrap "callback" (.wrap "rate limit wait" cause)) := by
  unfold ProcessChannels
  rw [hdir]
  simp only
  generalize runCallback env fuel srcChatID targetChatID = r at hcb
  obtain ⟨r1, s⟩ := r
  simp only at hcb
  subst hcb
  simp only [waiterRun, clientRun, Error.isCanceled]
  split <;> rfl

/-- C7, amended: in every run of `ProcessChannels`, every send attempt directly follows a
granted acquisition of the rate limiter, every granted acquisition is directly followed by a
send attempt, so that there are as many granted acquisitions as send attempts; no
acquisition comes before a history or resolve call; and a refused acquisition is the last
event of the run: the callback returns the error of the limiter wrapped in "rate limit
wait", and the run returns `nil` when that error is a context cancellation and the error
wrapped in "callback" otherwise. -/
theorem limiter_wait_before_every_send (env : Env) (fuel : Nat)
    (srcChatID targetChatID : Int) :
    (∀ pre e post, (ProcessChannels env fuel srcChatID targetChatID).2.trace = pre ++ e :: post →
        e.isSend = true → ∃ pre', pre = pre' ++ [.limiterWait true])
      ∧ (∀ pre post, (ProcessChannels env fuel srcChatID targetChatID).2.trace
            = pre ++ .limiterWait true :: post →
          ∃ e post', post = e :: post' ∧ e.isSend = true)
      ∧ (ProcessChannels env fuel srcChatID targetChatID).2.trace.count (.limiterWait true)
          = (ProcessChannels env fuel srcChatID targetChatID).2.trace.countP Event.isSend
      ∧ (ProcessChannels env fuel srcChatID targetChatID).2.trace.Pairwise
          (fun a b => ¬ (a.isWait = true ∧ b.isFetch = true))
      ∧ (∀ pre post, (ProcessChannels env fuel srcChatID targetChatID).2.trace
            = pre ++ .limiterWait false :: post →
          post = []
            ∧ ∃ cause, (runCallback env fuel srcChatID targetChatID).1
                = .err (.wrap "rate limit wait" cause)
              ∧ (ProcessChannels env fuel srcChatID targetChatID).1
                = if cause.isCanceled then .ok ()
                  else .err (.wrap "callback" (.wrap "rate limit wait" cause))) := by
  obtain ⟨F, D, ht, hF, hD⟩ := runCallback_trace env fuel srcChatID targetChatID
  have hFno : Event.limiterWait false ∉ F := fun hx => by
    have := hF _ hx
    simp [Event.isFetch] at this
  have hpc : paced false (runCallback env fuel srcChatID targetChatID).2.trace = true := by
    rw [ht, paced_append D F false (paced_fetches F hF) hFno]
    exact hD.paced
  have hpw : (runCallback env fuel srcChatID targetChatID).2.trace.Pairwise
      (fun a b => ¬ (a.isWait = true ∧ b.isFetch = true)) := by
    rw [ht, List.pairwise_append]
    refine ⟨?_, ?_, ?_⟩
    · apply List.Pairwise.imp_of_mem (R := fun _ _ => True)
      · intro a b ha _ _ hab
        have := hF a ha
        cases a <;> simp_all [Event.isFetch, Event.isWait]
      · exact List.pairwise_of_forall (fun _ _ => trivial)
    · apply List.Pairwise.imp_of_mem (R := fun _ _ => True)
      · intro a b _ hb _ hab
        have := hD.noFetch b hb
        rw [this] at hab
        simp at hab
      · exact List.pairwise_of_forall (fun _ _ => trivial)
    · intro a ha b hb hab
      have := hD.noFetch b hb
      rw [this] at hab
      simp at hab
  rcases ProcessChannels_trace env fuel srcChatID targetChatID with hnil | ⟨hdir, htr⟩
  · rw [hnil]
    refine ⟨?_, ?_, rfl, List.Pairwise.nil, ?_⟩
    · intro pre e post h
      cases pre <;> cases h
    · intro pre post h
      cases pre <;> cases h
    · intro pre post h
      cases pre <;> cases h
  · rw [htr]
    refine ⟨?_, ?_, ?_, hpw, ?_⟩
    · intro pre e post h he
      rw [h] at hpc
      rcases paced_send_after_wait pre false e post hpc he with ⟨_, h'⟩ | h'
      · cases h'
      · exact h'
    · intro pre post h
      rw [h] at hpc
      exact paced_send_follows_wait pre false post hpc
    · simpa using paced_count _ false hpc
    · intro pre post h
      refine ⟨?_, ?_⟩
      · rw [h] at hpc
        exact paced_refused_last pre false post hpc
      · have hmem : Event.limiterWait false ∈ F ++ D := by
          rw [← ht, h]
          simp
        have hD' : Event.limiterWait false ∈ D := by
          rcases List.mem_append.mp hmem with hx | hx
          · exact absurd hx hFno
          · exact hx
        obtain ⟨cause, hc⟩ := hD.refused hD'
        have hcb : (runCallback env fuel srcChatID targetChatID).1
            = .err (.wrap "rate limit wait" cause) := by
          generalize (runCallback env fuel srcChatID targetChatID).1 = r1 at hc
          cases r1 <;> simp_all [Res.failure]
        exact ⟨cause, hcb,
          ProcessChannels_refused env fuel srcChatID targetChatID cause hdir hcb⟩

end TgForwarder
